import Mathlib

/-!
# Verification development for `go-web-test`

A shallow embedding of the load generator of `requests.go` and of the action of
the command of `cli_commands.go`, and the properties of its specification.

* Go `int` is the 64-bit two's complement integer of the usual targets (amd64,
  arm64): a `GoInt` is an integer of `[minInt, maxInt]`, and every arithmetic
  operation wraps around, as the Go specification prescribes.
* Go `float64` is IEEE 754 binary64 with rounding to nearest, ties to even: a
  finite value is the rational number it denotes, and an operation rounds the
  exact result (`Float64`).
* A panic of the Go runtime is the `Except.error` branch of a result.
* A function with effects returns what it does: `sendConcurrentRequests` its
  calls of `sendBatch`, `sendBatch` the ids it starts a `sendRequest` for, both
  in the order of the `go` statements, and `sendRequest` its log lines and
  requests. The scheduling of the goroutines is not part of the embedding.
* The random source, the network and the library functions are parameters:
  the draws of the source (`Draws`, `Intn`), the conversion `strconv.Atoi`, and
  for `http.NewRequest` and `client.Do` what lies under them (`World`): which
  texts `net/url` rejects and what one transmission of a request gives. The
  embedding of the two calls follows `net/url` and `net/http`: the loop of
  `client.Do` over the redirects, and the `*url.Error` of every error, which
  quotes the URL of the request at fault.
* A log line is the text that `log.Printf` makes of its format and operands
  (`LogCall.text`), which the logger prints after the date and the time.
-/

namespace GoWebTest

/-! ## Go `int` -/

/-- Largest value of a Go `int`: `math.MaxInt64`. -/
def maxInt : Int := 2 ^ 63 - 1

/-- Smallest value of a Go `int`: `math.MinInt64`. -/
def minInt : Int := -(2 ^ 63)

/-- Two's complement wrap-around of a mathematical integer into 64 bits. -/
def wrap (x : Int) : Int := (x + 2 ^ 63) % 2 ^ 64 - 2 ^ 63

/-- A value of Go type `int`. -/
structure GoInt where
  val : Int
  lo : minInt ≤ val
  hi : val ≤ maxInt
deriving DecidableEq

namespace GoInt

/-- Conversion of a mathematical integer, with wrap-around. -/
def ofInt (x : Int) : GoInt :=
  ⟨wrap x, by unfold wrap minInt; omega, by unfold wrap maxInt; omega⟩

/-- Go `a + b`. -/
def add (a b : GoInt) : GoInt := ofInt (a.val + b.val)

/-- Go `a - b`. -/
def sub (a b : GoInt) : GoInt := ofInt (a.val - b.val)

/-- Go `a * b`. -/
def mul (a b : GoInt) : GoInt := ofInt (a.val * b.val)

/-- Go `a / b`: truncated division, a run-time panic when `b` is zero. -/
def quo (a b : GoInt) : Except String GoInt :=
  if b.val = 0 then .error "runtime error: integer divide by zero"
  else .ok (ofInt (Int.tdiv a.val b.val))

end GoInt

/-! ## `requests.go`: the batch controller -/

/-- The function `min` of `requests.go`. -/
def min (a b : GoInt) : GoInt :=
  if a.val < b.val then a else b

/-- The loop `for i := 0; i < numRequests; i++` of `sendBatch`, from the
current value of `i`: the ids handed to `go sendRequest(client, startID+i, ..)`,
in the order of the `go` statements. -/
def sendBatch.loop (startID numRequests i : GoInt) : List GoInt :=
  if i.val < numRequests.val then
    startID.add i :: sendBatch.loop startID numRequests (i.add (GoInt.ofInt 1))
  else []
termination_by (numRequests.val - i.val).toNat
decreasing_by
  have h1 := i.lo
  have h2 := numRequests.hi
  have h3 : (i.add (GoInt.ofInt 1)).val = i.val + 1 := by
    show wrap (i.val + wrap 1) = _
    unfold wrap; unfold minInt at h1; unfold maxInt at h2; omega
  rw [h3]; omega

/-- The function `sendBatch`: the job ids it starts a `sendRequest` for. -/
def sendBatch (startID numRequests : GoInt) : List GoInt :=
  sendBatch.loop startID numRequests (GoInt.ofInt 0)

/-- One call `go sendBatch(startID, requestsInBatch, &wg)`. -/
structure BatchCall where
  startID : GoInt
  requestsInBatch : GoInt
deriving DecidableEq

/-- The expression `(totalRequests + batchSize - 1) / batchSize` of
`sendConcurrentRequests`. -/
def numBatches (totalRequests batchSize : GoInt) : Except String GoInt :=
  ((totalRequests.add batchSize).sub (GoInt.ofInt 1)).quo batchSize

/-- The loop `for batch := 0; batch < numBatches; batch++` of
`sendConcurrentRequests`, from the current value of `batch`: the calls of
`sendBatch` it makes, in order. -/
def sendConcurrentRequests.loop (totalRequests batchSize numBatches batch : GoInt) :
    List BatchCall :=
  if batch.val < numBatches.val then
    let startID := batch.mul batchSize
    let requestsInBatch := min batchSize (totalRequests.sub startID)
    ⟨startID, requestsInBatch⟩ ::
      sendConcurrentRequests.loop totalRequests batchSize numBatches
        (batch.add (GoInt.ofInt 1))
  else []
termination_by (numBatches.val - batch.val).toNat
decreasing_by
  have h1 := batch.lo
  have h2 := numBatches.hi
  have h3 : (batch.add (GoInt.ofInt 1)).val = batch.val + 1 := by
    show wrap (batch.val + wrap 1) = _
    unfold wrap; unfold minInt at h1; unfold maxInt at h2; omega
  rw [h3]; omega

/-- The function `sendConcurrentRequests`: the calls of `sendBatch` of a run,
or the panic of the division. -/
def sendConcurrentRequests (totalRequests batchSize : GoInt) :
    Except String (List BatchCall) :=
  match numBatches totalRequests batchSize with
  | .error e => .error e
  | .ok n => .ok (sendConcurrentRequests.loop totalRequests batchSize n (GoInt.ofInt 0))

/-- The job ids handed to `sendRequest` over a list of `sendBatch` calls, batch
by batch. -/
def jobIds (calls : List BatchCall) : List GoInt :=
  calls.flatMap fun c => sendBatch c.startID c.requestsInBatch

/-- Specification side: the number `n` is the ceiling of `t / b`, for positive
`t` and `b`, that is the least number of batches of size `b` that cover `t`
requests. -/
structure Ceil (t b n : GoInt) : Prop where
  hb : 0 < b.val
  ht : 0 < t.val
  lo : (n.val - 1) * b.val < t.val
  hi : t.val ≤ n.val * b.val

/-! ## `requests.go`: the random parameter generator -/

/-- The library function `rand.Intn`, by its documentation: it panics when
`n <= 0` and otherwise returns a number of `[0, n)`. The number is the raw
output `src` of the random source reduced modulo `n`, so every number of
`[0, n)` is returned for some `src`. -/
def Intn (src : Nat) (n : GoInt) : Except String GoInt :=
  if n.val ≤ 0 then .error "invalid argument to Intn"
  else .ok (GoInt.ofInt ((src : Int) % n.val))

/-- The function `randomInt`. -/
def randomInt (src : Nat) (min max : GoInt) : Except String GoInt :=
  match Intn src ((max.sub min).add (GoInt.ofInt 1)) with
  | .error e => .error e
  | .ok r => .ok (r.add min)

/-! ## Go `float64`

A finite `float64` is the rational number it denotes; the sign of a zero is not
kept. Every operation computes the exact result and rounds it to the nearest
binary64 number, ties to the even significand (IEEE 754, the only rounding mode
of Go). -/

/-- Rounding of a rational number to the nearest integer, ties to even. -/
def roundHalfEven (t : ℚ) : Int :=
  let f := ⌊t⌋
  if t - f < 1 / 2 then f
  else if 1 / 2 < t - f then f + 1
  else if f % 2 = 0 then f else f + 1

/-- Binary exponent of the unit in the last place of binary64 at `x`: 52 below
the exponent of `x` for a normal number, and `-1074` in the subnormal range. -/
def ulpExp (x : ℚ) : Int := max (Int.log 2 |x| - 52) (-1074)

/-- Rounding of a rational number to a 53-bit significand, the exponent not
bounded above. -/
def roundToGrid (x : ℚ) : ℚ := roundHalfEven (x / 2 ^ ulpExp x) * 2 ^ ulpExp x

/-- Largest finite `float64`: `math.MaxFloat64`. -/
def maxFloat64 : ℚ := (2 ^ 53 - 1) * 2 ^ 971

/-- A value of Go type `float64`. -/
inductive Float64 where
  | finite (q : ℚ)
  | inf (negative : Bool)
  | nan
deriving DecidableEq

namespace Float64

/-- Rounding of an exact result to `float64`, with overflow to an infinity. -/
def round (x : ℚ) : Float64 :=
  let r := roundToGrid x
  if maxFloat64 < r then inf false
  else if r < -maxFloat64 then inf true
  else finite r

/-- The rational number is a finite `float64`. -/
def Representable (q : ℚ) : Prop := round q = finite q

instance (q : ℚ) : Decidable (Representable q) := by
  unfold Representable; infer_instance

/-- Go `a + b`. -/
def add : Float64 → Float64 → Float64
  | finite a, finite b => round (a + b)
  | finite _, inf s => inf s
  | inf s, finite _ => inf s
  | inf s, inf s' => if s = s' then inf s else nan
  | _, _ => nan

/-- Go `-a`. -/
def neg : Float64 → Float64
  | finite a => finite (-a)
  | inf s => inf (!s)
  | nan => nan

/-- Go `a - b`. -/
def sub (a b : Float64) : Float64 := add a (neg b)

/-- Go `a * b`. -/
def mul : Float64 → Float64 → Float64
  | finite a, finite b => round (a * b)
  | finite a, inf s => if a = 0 then nan else inf (s != decide (a < 0))
  | inf s, finite b => if b = 0 then nan else inf (s != decide (b < 0))
  | inf s, inf s' => inf (s != s')
  | _, _ => nan

/-- The fused multiply-add `a * b + c`, rounded once. -/
def fma : Float64 → Float64 → Float64 → Float64
  | finite a, finite b, finite c => round (a * b + c)
  | a, b, c => add (mul a b) c

end Float64

/-! ## `requests.go`: `randomFloat` and the formatting of its result -/

/-- The function `randomFloat`, for the draw `u` of `rand.Float64()`. The Go
specification lets an implementation fuse `x*y + z` into one operation rounded
once (as the arm64 compiler does); `fused` tells which code is run. -/
def randomFloat (fused : Bool) (u min max : Float64) : Float64 :=
  if fused then Float64.fma u (max.sub min) min
  else min.add (u.mul (max.sub min))

/-- The text of a non-negative number of hundredths: the integer part, a point,
two fractional digits. -/
def decimal2 (h : Nat) : String :=
  toString (h / 100) ++ "." ++ toString (h / 10 % 10) ++ toString (h % 10)

/-- The library call `fmt.Sprintf("%.2f", x)`, by its documentation: the
decimal expansion of the exact value of `x`, rounded to two fractional digits,
ties to even. -/
def formatFixed2 : Float64 → String
  | .nan => "NaN"
  | .inf false => "+Inf"
  | .inf true => "-Inf"
  | .finite q =>
    (if q < 0 then "-" else "") ++ decimal2 (roundHalfEven (|q| * 100)).toNat

/-- The expression `fmt.Sprintf("%.2f", randomFloat(0.1, 200))` of
`sendRequest`: the constant `0.1` is the nearest `float64`. -/
def interestRate (fused : Bool) (u : Float64) : String :=
  formatFixed2 (randomFloat fused u (Float64.round (1 / 10)) (.finite 200))

/-! ## `requests.go`: the request dispatcher -/

/-- A Go `error`, by the text of its `Error()` method. -/
structure GoError where
  text : String
deriving DecidableEq

/-- An operand of a `log.Printf` call. -/
inductive Operand where
  | int (v : GoInt)
  | str (s : String)
  | err (e : GoError)
deriving DecidableEq

/-- The text of an operand under its verb: `%d` of an `int`, `%s` of a
`string`, `%v` of an `error`. -/
def Operand.text : Operand → String
  | .int v => toString v.val
  | .str s => s
  | .err e => e.text

/-- One call of `log.Printf`: one log line. -/
structure LogCall where
  format : String
  operands : List Operand
deriving DecidableEq

/-- The expansion of a format by `fmt`, for a format whose verbs are a `%` and
one letter and have an operand each, as the three formats of `sendRequest`:
every verb is replaced by the text of the next operand, every other character
is copied. -/
def render : List Char → List Operand → List Char
  | '%' :: _ :: rest, op :: ops => op.text.data ++ render rest ops
  | c :: rest, ops => c :: render rest ops
  | [], _ => []

/-- The text of a log line, after the date and time that the standard logger
puts in front of it. -/
def LogCall.text (line : LogCall) : String :=
  ⟨render line.format.data line.operands⟩

/-- Specification side: the text `part` occurs in the text `line`. -/
def Contains (line part : String) : Prop := part.data <:+: line.data

instance (line part : String) : Decidable (Contains line part) := by
  unfold Contains; infer_instance

/-- A request built by `http.NewRequest`: its method and its URL. A URL is kept
as its text, the one that an error prints (`stripPassword`); for a URL made of
a scheme, a host, a path and a query, as the URLs of `sendRequest` are,
`url.Parse` followed by `(*URL).String` gives the text back. -/
structure Request where
  method : String
  url : String
deriving DecidableEq

/-- What `sendRequest` and `client.Do` read of a `*http.Response`: the status
line, the status code, and the `Location` header, empty when there is none. -/
structure Response where
  Status : String
  StatusCode : Int
  Location : String
deriving DecidableEq

/-- The verb `%q` on a string, `strconv.Quote`, for printable text: the text
between double quotes, with a backslash before every double quote and every
backslash of it. Characters that are not printable, which Go escapes too, are
not modelled; by `requestURL_plain` no URL of `sendRequest` has one. -/
def quote (s : String) : String :=
  "\"" ++ ⟨s.data.flatMap fun c =>
    if c = Char.ofNat 34 ∨ c = Char.ofNat 92 then [Char.ofNat 92, c] else [c]⟩ ++ "\""

/-- The error type `*url.Error` of `net/url`, by its method `Error()`:
`fmt.Sprintf("%s %q: %s", e.Op, e.URL, e.Err)`. -/
def urlError (op url : String) (cause : GoError) : GoError :=
  ⟨op ++ " " ++ quote url ++ ": " ++ cause.text⟩

/-- The function `urlErrorOp` of `net/http`, the operation that `client.Do`
names in its errors: `Get` for no method; for a method of printable ASCII
characters, its first letter and the others in lower case; else the method. -/
def urlErrorOp (method : String) : String :=
  match method.data with
  | [] => "Get"
  | c :: cs =>
    if (c :: cs).all fun d => decide (32 ≤ d.toNat ∧ d.toNat ≤ 126) then
      ⟨c :: cs.map Char.toLower⟩
    else method

/-- The library call `strings.Cut(s, "#")` of `url.Parse`: the text before the
first `#` and the text after it. -/
def cutFragment (s : String) : String × String :=
  (⟨s.data.takeWhile fun c => decide (c ≠ Char.ofNat 35)⟩,
    ⟨(s.data.dropWhile fun c => decide (c ≠ Char.ofNat 35)).drop 1⟩)

/-- The outside world of `sendRequest`: which texts the unexported `parse` and
`setFragment` of `net/url` reject, and with which error; what one transmission
(`(*http.Client).send`, the transport under the timeout of the client) gives
for a request, a response or an error; and the URL that `(*URL).Parse` resolves
a `Location` header to, relative to the URL of the request, or its error. -/
structure World where
  parse : String → Option GoError
  setFragment : String → Option GoError
  send : Request → Except GoError Response
  resolve : String → String → Except GoError String

/-- The function `url.Parse`: the fragment is cut off and both parts are
parsed; an error is a `*url.Error` with the operation `parse`, on the text
before the fragment when that text is rejected and on the whole text when the
fragment is. -/
def World.Parse (world : World) (rawURL : String) : Except GoError String :=
  match world.parse (cutFragment rawURL).1 with
  | some cause => .error (urlError "parse" (cutFragment rawURL).1 cause)
  | none =>
    if (cutFragment rawURL).2 = "" then .ok rawURL
    else
      match world.setFragment (cutFragment rawURL).2 with
      | some cause => .error (urlError "parse" rawURL cause)
      | none => .ok rawURL

/-- The library call `http.NewRequest(method, url, nil)` for a valid method, as
`GET` is: its only error is the one of `url.Parse`. -/
def World.NewRequest (world : World) (method url : String) : Except GoError Request :=
  match world.Parse url with
  | .error err => .error err
  | .ok u => .ok ⟨method, u⟩

/-- The function `redirectBehavior` of `net/http` for a request without body:
the method of the next request, and whether the response is a redirect to
follow. -/
def redirectBehavior (reqMethod : String) (resp : Response) : String × Bool :=
  if resp.StatusCode = 301 ∨ resp.StatusCode = 302 ∨ resp.StatusCode = 303 then
    (if reqMethod ≠ "GET" ∧ reqMethod ≠ "HEAD" then "GET" else reqMethod, true)
  else if resp.StatusCode = 307 ∨ resp.StatusCode = 308 then (reqMethod, true)
  else ("", false)

/-- The loop of `(*http.Client).do`, from the transmission of `req` on, for a
client without `CheckRedirect`, as the one of `sendBatch` is. `op` is the
operation of the first request and `allowed` the number of redirects that
`defaultCheckRedirect` still lets through. A response that is no redirect, or
a redirect without `Location` header, is the result. Every error is a
`*url.Error`: of a failed transmission, on the URL of the request transmitted;
of a `Location` header that does not parse, on the URL of the request
redirected; of the refusal of a redirect, on the `Location` header. -/
def World.doLoop (world : World) (op : String) : Nat → Request → Except GoError Response
  | allowed, req =>
    match world.send req with
    | .error cause => .error (urlError op req.url cause)
    | .ok resp =>
      if (redirectBehavior req.method resp).2 = false then .ok resp
      else if resp.Location = "" then .ok resp
      else
        match world.resolve req.url resp.Location with
        | .error cause =>
          .error (urlError op req.url
            ⟨"failed to parse Location header " ++ quote resp.Location ++ ": " ++ cause.text⟩)
        | .ok u =>
          match allowed with
          | 0 => .error (urlError op resp.Location ⟨"stopped after 10 redirects"⟩)
          | k + 1 => world.doLoop op k ⟨(redirectBehavior req.method resp).1, u⟩

/-- The library call `client.Do(req)`: the first request counts among the ten
that `defaultCheckRedirect` accepts, so nine redirects are followed. -/
def World.Do (world : World) (req : Request) : Except GoError Response :=
  world.doLoop (urlErrorOp req.method) 9 req

/-- Specification side: every character of the text is a printable ASCII
character, none of them a `#`, a double quote or a backslash. -/
def Plain (s : String) : Prop :=
  ∀ c ∈ s.data, c ≠ Char.ofNat 35 ∧ c ≠ Char.ofNat 34 ∧ c ≠ Char.ofNat 92 ∧
    32 ≤ c.toNat ∧ c.toNat ≤ 126

instance (s : String) : Decidable (Plain s) := by
  unfold Plain; infer_instance

/-- The draws of the shared random source that one `sendRequest` consumes, in
the order of its four calls. -/
structure Draws where
  initAmount : Nat
  monthlyContribution : Nat
  interestRate : Float64
  numberOfYears : Nat

/-- What one `sendRequest` does: its log lines, the requests it hands to
`client.Do`, and how often it calls `resp.Body.Close()` and `wg.Done()`. -/
structure Effects where
  logs : List LogCall
  sent : List Request
  bodyClosed : Nat
  wgDone : Nat
deriving DecidableEq

/-- The URL built by `fmt.Sprintf` in `sendRequest`. -/
def requestURL (initAmount monthlyContribution : GoInt) (interestRate : String)
    (numberOfYears : GoInt) : String :=
  "https://calc.test.trahan.dev/calculated?initAmount=" ++ toString initAmount.val
    ++ "&monthlyContribution=" ++ toString monthlyContribution.val
    ++ "&interestRate=" ++ interestRate
    ++ "&numberOfYears=" ++ toString numberOfYears.val

/-- The function `sendRequest`. The result is an error when the function
panics. -/
def sendRequest (fused : Bool) (world : World) (draws : Draws) (id : GoInt) :
    Except String Effects := do
  let initAmount ← randomInt draws.initAmount (GoInt.ofInt 500) (GoInt.ofInt 100000)
  let monthlyContribution ←
    randomInt draws.monthlyContribution (GoInt.ofInt 50) (GoInt.ofInt 5000)
  let interestRate := interestRate fused draws.interestRate
  let numberOfYears ← randomInt draws.numberOfYears (GoInt.ofInt 1) (GoInt.ofInt 50)
  let url := requestURL initAmount monthlyContribution interestRate numberOfYears
  match world.NewRequest "GET" url with
  | .error err =>
    pure { logs := [⟨"Error creating request %d: %v", [.int id, .err err]⟩],
           sent := [], bodyClosed := 0, wgDone := 1 }
  | .ok req =>
    match world.Do req with
    | .error err =>
      pure { logs := [⟨"Error in request %d: %v", [.int id, .err err]⟩],
             sent := [req], bodyClosed := 0, wgDone := 1 }
    | .ok resp =>
      pure { logs := [⟨"Request %d - initAmount: %d, monthlyContribution: %d, interestRate: %s, numberOfYears: %d, Status: %s\n",
                      [.int id, .int initAmount, .int monthlyContribution,
                        .str interestRate, .int numberOfYears, .str resp.Status]⟩],
             sent := [req], bodyClosed := 1, wgDone := 1 }

/-- A world for the examples: every URL parses, and the server at
`calc.test.trahan.dev` is down, so that the connection is refused. -/
def serverDown : World where
  parse := fun _ => none
  setFragment := fun _ => none
  send := fun _ => .error ⟨"dial tcp 192.0.2.1:443: connect: connection refused"⟩
  resolve := fun _ loc => .ok loc

/-- A world for the examples: every URL parses, and every request is answered
by a redirect to the login page `https://login.test/`, whose server closes the
connection without an answer. -/
def loginRedirect : World where
  parse := fun _ => none
  setFragment := fun _ => none
  send := fun req =>
    if req.url = "https://login.test/" then .error ⟨"EOF"⟩
    else .ok ⟨"302 Found", 302, "https://login.test/"⟩
  resolve := fun _ loc => .ok loc

/-! ## `cli_commands.go`: the action of the command -/

/-- What the action reads of its `*cli.Context`: the value of each option that
is set on the command line, and the positional arguments. -/
structure Context where
  requests : Option GoInt
  batchSize : Option GoInt
  args : List String

namespace Context

/-- The method `cCtx.IsSet`. -/
def IsSet (cCtx : Context) (name : String) : Bool :=
  if name = "requests" then cCtx.requests.isSome
  else if name = "batch-size" then cCtx.batchSize.isSome
  else false

/-- The method `cCtx.Int`: the value of the option, or its default (`Value: 75`
for `batch-size`). -/
def Int (cCtx : Context) (name : String) : GoInt :=
  if name = "requests" then cCtx.requests.getD (GoInt.ofInt 0)
  else if name = "batch-size" then cCtx.batchSize.getD (GoInt.ofInt 75)
  else GoInt.ofInt 0

end Context

/-- The error built by `cli.Exit(message, exitCode)`. -/
structure ExitError where
  message : String
  exitCode : Int
deriving DecidableEq

/-- What a run of the action does: its calls of `sendConcurrentRequests`, with
their arguments, and the error it returns (`none` is `nil`). -/
structure ActionResult where
  calls : List (GoInt × GoInt)
  err : Option ExitError
deriving DecidableEq

/-- The library function `strconv.Atoi`, by its documentation: an optional
sign and decimal digits, within the range of `int`. -/
def Atoi (s : String) : Except String GoInt :=
  let digits := match s.toList with
    | '-' :: r => r
    | '+' :: r => r
    | cs => cs
  if digits.isEmpty || !digits.all Char.isDigit then
    .error ("strconv.Atoi: parsing " ++ s.quote ++ ": invalid syntax")
  else
    let n : Int := digits.foldl (fun a c => 10 * a + ((c.toNat : Int) - 48)) 0
    let v : Int := if s.toList.head? = some '-' then -n else n
    if h : minInt ≤ v ∧ v ≤ maxInt then .ok ⟨v, h.1, h.2⟩
    else .error ("strconv.Atoi: parsing " ++ s.quote ++ ": value out of range")

/-- The `Action` of the command built by `SendPostRequests`, for a conversion
function `atoi` in the place of `strconv.Atoi`. The result is an error when the
action panics. -/
def Action (atoi : String → Except String GoInt) (cCtx : Context) :
    Except String ActionResult :=
  let totalRequests : Except ExitError GoInt :=
    if cCtx.IsSet "requests" then .ok (cCtx.Int "requests")
    else if cCtx.args.length > 0 then
      match atoi (cCtx.args.getD 0 "") with
      | .error _ => .error ⟨"Invalid value for total requests. Expected an integer.", 1⟩
      | .ok arg0 => .ok arg0
    else .ok (GoInt.ofInt 0)
  match totalRequests with
  | .error e => .ok ⟨[], some e⟩
  | .ok totalRequests =>
    let batchSize : Except ExitError GoInt :=
      if cCtx.IsSet "batch-size" then .ok (cCtx.Int "batch-size")
      else if cCtx.args.length > 1 then
        match atoi (cCtx.args.getD 1 "") with
        | .error _ => .error ⟨"Invalid value for batch size. Expected an integer.", 1⟩
        | .ok arg1 => .ok arg1
      else .ok (GoInt.ofInt 0)
    match batchSize with
    | .error e => .ok ⟨[], some e⟩
    | .ok batchSize =>
      if totalRequests.val = 0 ∨ batchSize.val = 0 then
        .ok ⟨[], some ⟨"Please provide valid values for total requests and batch size.", 1⟩⟩
      else
        match sendConcurrentRequests totalRequests batchSize with
        | .error e => .error e
        | .ok _ => .ok ⟨[(totalRequests, batchSize)], none⟩

/-- Specification side: how the command resolves one of its two numbers, in
the words of the specification. It is the value of the option if the option is
set, else the value of the positional argument, which may be absent or not an
integer. -/
inductive SpecResolved where
  | value (v : GoInt)
  | notAnInteger
  | absent
deriving DecidableEq

/-- Specification side: resolution of one number from its option and its
positional argument. -/
def specResolve (atoi : String → Except String GoInt) (option : Option GoInt)
    (arg : Option String) : SpecResolved :=
  match option, arg with
  | some v, _ => .value v
  | none, none => .absent
  | none, some s =>
    match atoi s with
    | .ok v => .value v
    | .error _ => .notAnInteger

/-! ## Facts about Go `int` arithmetic -/

theorem wrap_id (x : Int) (h1 : minInt ≤ x) (h2 : x ≤ maxInt) : wrap x = x := by
  unfold wrap; unfold minInt at h1; unfold maxInt at h2; omega

theorem wrap_wrap_sub (x y : Int) : wrap (wrap x - y) = wrap (x - y) := by
  unfold wrap; omega

theorem GoInt.ofInt_val (x : Int) (h1 : minInt ≤ x) (h2 : x ≤ maxInt) :
    (GoInt.ofInt x).val = x := wrap_id x h1 h2

theorem GoInt.add_val (a b : GoInt) (h1 : minInt ≤ a.val + b.val)
    (h2 : a.val + b.val ≤ maxInt) : (a.add b).val = a.val + b.val := wrap_id _ h1 h2

theorem GoInt.sub_val (a b : GoInt) (h1 : minInt ≤ a.val - b.val)
    (h2 : a.val - b.val ≤ maxInt) : (a.sub b).val = a.val - b.val := wrap_id _ h1 h2

theorem GoInt.mul_val (a b : GoInt) (h1 : minInt ≤ a.val * b.val)
    (h2 : a.val * b.val ≤ maxInt) : (a.mul b).val = a.val * b.val := wrap_id _ h1 h2

theorem GoInt.ofInt_zero_val : (GoInt.ofInt 0).val = 0 := by decide

theorem GoInt.ofInt_one_val : (GoInt.ofInt 1).val = 1 := by decide

theorem GoInt.succ_val (a : GoInt) (h : a.val < maxInt) :
    (a.add (GoInt.ofInt 1)).val = a.val + 1 := by
  have h0 := a.lo
  have hm : minInt < 0 := by decide
  rw [GoInt.add_val] <;> rw [GoInt.ofInt_one_val] <;> omega

theorem GoInt.ext_val {a b : GoInt} (h : a.val = b.val) : a = b := by
  cases a; cases b; cases h; rfl

/-- Ceiling division on the mathematical integers. -/
theorem ceilDiv_spec (t b : Int) (hb : 0 < b) :
    t ≤ ((t + b - 1) / b) * b ∧ ((t + b - 1) / b - 1) * b < t := by
  have h1 := Int.ediv_add_emod (t + b - 1) b
  have h2 := Int.emod_nonneg (t + b - 1) (ne_of_gt hb)
  have h3 := Int.emod_lt_of_pos (t + b - 1) hb
  constructor <;> nlinarith

/-- Without overflow of `totalRequests + batchSize - 1` the division of
`sendConcurrentRequests` is the one of the mathematical integers. -/
theorem numBatches_val (t b : GoInt) (ht : 0 < t.val) (hb : 0 < b.val)
    (hov : t.val + b.val - 1 ≤ maxInt) :
    ∃ n, numBatches t b = .ok n ∧ n.val = (t.val + b.val - 1) / b.val := by
  have hb' : b.val ≠ 0 := ne_of_gt hb
  have hm : minInt < 0 := by decide
  have hM : 0 < maxInt := by decide
  unfold numBatches GoInt.quo
  rw [if_neg hb']
  refine ⟨_, rfl, ?_⟩
  have e1 : ((t.add b).sub (GoInt.ofInt 1)).val = t.val + b.val - 1 := by
    show wrap (wrap (t.val + b.val) - wrap 1) = _
    rw [wrap_id 1 (by decide) (by decide), wrap_wrap_sub, wrap_id _ (by omega) hov]
  show wrap (Int.tdiv _ b.val) = _
  rw [e1, Int.tdiv_eq_ediv (by omega) (by omega)]
  have h0 : 0 ≤ (t.val + b.val - 1) / b.val := Int.ediv_nonneg (by omega) (by omega)
  have h1 : (t.val + b.val - 1) / b.val ≤ t.val + b.val - 1 :=
    Int.ediv_le_self _ (by omega)
  exact wrap_id _ (by omega) (by omega)

/-! ## The ids of one batch -/

/-- The ids of one batch are consecutive from `startID + i`. -/
theorem sendBatch_loop_val (s m : GoInt) (hs : 0 ≤ s.val) (hsm : s.val + m.val - 1 ≤ maxInt) :
    ∀ (c : Nat) (i : GoInt), 0 ≤ i.val → m.val = i.val + c →
      (sendBatch.loop s m i).map GoInt.val
        = (List.range c).map (fun (k : Nat) => s.val + i.val + (k : Int)) := by
  have hm : minInt < 0 := by decide
  intro c
  induction c with
  | zero =>
    intro i _ h
    rw [sendBatch.loop, if_neg (by omega)]; rfl
  | succ c ih =>
    intro i hi h
    have hM := m.hi
    rw [sendBatch.loop, if_pos (by omega)]
    have e := GoInt.succ_val i (by omega)
    rw [List.map_cons, ih _ (by omega) (by omega), e, List.range_succ_eq_map,
      List.map_cons, List.map_map, GoInt.add_val _ _ (by omega) (by omega)]
    congr 1
    · simp
    · apply List.map_congr_left
      intro k _
      simp only [Function.comp, Nat.succ_eq_add_one, Nat.cast_add, Nat.cast_one]
      ring

theorem sendBatch_val (s m : GoInt) (hs : 0 ≤ s.val) (h0 : 0 ≤ m.val)
    (hsm : s.val + m.val - 1 ≤ maxInt) :
    (sendBatch s m).map GoInt.val
      = (List.range m.val.toNat).map (fun (k : Nat) => s.val + (k : Int)) := by
  unfold sendBatch
  rw [sendBatch_loop_val s m hs hsm m.val.toNat (GoInt.ofInt 0)
    (by rw [GoInt.ofInt_zero_val]) (by rw [GoInt.ofInt_zero_val]; omega)]
  simp [GoInt.ofInt_zero_val]

/-! ## The batch controller -/

theorem min_val (a b : GoInt) : (min a b).val = Min.min a.val b.val := by
  unfold min
  split
  · rw [min_eq_left]; omega
  · rw [min_eq_right]; omega

theorem startID_val {t b n : GoInt} (H : Ceil t b n) (k : GoInt) (h0 : 0 ≤ k.val)
    (hk : k.val < n.val) :
    (k.mul b).val = k.val * b.val ∧ k.val * b.val < t.val := by
  have hm : minInt < 0 := by decide
  have hb := H.hb
  have hlo := H.lo
  have hT := t.hi
  have h1 : k.val * b.val ≤ (n.val - 1) * b.val :=
    Int.mul_le_mul_of_nonneg_right (by omega) (by omega)
  have h2 : 0 ≤ k.val * b.val := Int.mul_nonneg h0 (by omega)
  exact ⟨GoInt.mul_val _ _ (by omega) (by omega), by omega⟩

theorem requestsInBatch_val {t b n : GoInt} (H : Ceil t b n) (k : GoInt) (h0 : 0 ≤ k.val)
    (hk : k.val < n.val) :
    (min b (t.sub (k.mul b))).val = Min.min b.val (t.val - k.val * b.val) := by
  have hm : minInt < 0 := by decide
  have hT := t.hi
  obtain ⟨e, hlt⟩ := startID_val H k h0 hk
  have h2 : 0 ≤ k.val * b.val := Int.mul_nonneg h0 (le_of_lt H.hb)
  rw [min_val, GoInt.sub_val _ _ (by rw [e]; omega) (by rw [e]; omega), e]

/-- The calls of `sendBatch` made from batch index `k` on. -/
theorem loop_calls {t b n : GoInt} (H : Ceil t b n) :
    ∀ (c : Nat) (k : GoInt), 0 ≤ k.val → n.val = k.val + c →
      (sendConcurrentRequests.loop t b n k).map
          (fun x => (x.startID.val, x.requestsInBatch.val))
        = (List.range c).map (fun (j : Nat) =>
            ((k.val + j) * b.val, Min.min b.val (t.val - (k.val + j) * b.val))) := by
  intro c
  induction c with
  | zero =>
    intro k _ h
    rw [sendConcurrentRequests.loop, if_neg (by omega)]; rfl
  | succ c ih =>
    intro k hk h
    have hN := n.hi
    rw [sendConcurrentRequests.loop, if_pos (by omega)]
    have e := GoInt.succ_val k (by omega)
    simp only [List.map_cons]
    rw [ih _ (by omega) (by omega), e, List.range_succ_eq_map, List.map_cons, List.map_map,
      (startID_val H k hk (by omega)).1, requestsInBatch_val H k hk (by omega)]
    congr 1
    · simp
    · apply List.map_congr_left
      intro j _
      simp only [Function.comp, Nat.succ_eq_add_one, Nat.cast_add, Nat.cast_one]
      rw [show k.val + 1 + (j : Int) = k.val + ((j : Int) + 1) by ring]

theorem ceil_of_numBatches (t b : GoInt) (ht : 0 < t.val) (hb : 0 < b.val)
    (hov : t.val + b.val - 1 ≤ maxInt) :
    ∃ n, numBatches t b = .ok n ∧ Ceil t b n := by
  obtain ⟨n, h1, h2⟩ := numBatches_val t b ht hb hov
  have h3 := ceilDiv_spec t.val b.val hb
  rw [← h2] at h3
  exact ⟨n, h1, ⟨hb, ht, h3.2, h3.1⟩⟩

theorem Ceil.pos {t b n : GoInt} (H : Ceil t b n) : 0 < n.val := by
  have h1 := H.hb
  have h2 := H.ht
  have h3 := H.hi
  by_contra hn
  have : n.val * b.val ≤ 0 := Int.mul_nonpos_of_nonpos_of_nonneg (by omega) (by omega)
  omega

/-- Sum of the batch sizes from batch `k` on. -/
theorem sum_counts (t b n : Int) (hb : 0 < b) (lo : (n - 1) * b < t) (hi : t ≤ n * b) :
    ∀ (c : Nat) (k : Int), n = k + c →
      ((List.range c).map (fun (j : Nat) => Min.min b (t - (k + j) * b))).sum
        = if c = 0 then 0 else t - k * b := by
  intro c
  induction c with
  | zero => intro k _; rfl
  | succ c ih =>
    intro k h
    rw [List.range_succ_eq_map, List.map_cons, List.map_map, List.sum_cons]
    have e : ((fun (j : Nat) => Min.min b (t - (k + j) * b)) ∘ Nat.succ)
        = fun (j : Nat) => Min.min b (t - (k + 1 + j) * b) := by
      funext j
      simp only [Function.comp, Nat.succ_eq_add_one, Nat.cast_add, Nat.cast_one]
      rw [show k + ((j : Int) + 1) = k + 1 + j by ring]
    rw [e, ih (k + 1) (by push_cast at h; omega)]
    simp only [Nat.cast_zero, add_zero, Nat.succ_ne_zero, if_false]
    by_cases hc : c = 0
    · subst hc
      rw [if_pos rfl, add_zero, min_eq_right]
      have : n = k + 1 := by simpa using h
      subst this
      nlinarith
    · rw [if_neg hc, min_eq_left]
      · ring
      · have h1 : k + 1 ≤ n - 1 := by
          have : 1 ≤ (c : Int) := by omega
          push_cast at h; omega
        have h2 : (k + 1) * b ≤ (n - 1) * b := Int.mul_le_mul_of_nonneg_right h1 (by omega)
        nlinarith

/-- The job ids started from batch `k` on are the rest of the range. -/
theorem loop_ids {t b n : GoInt} (H : Ceil t b n) :
    ∀ (c : Nat) (k : GoInt), 0 ≤ k.val → n.val = k.val + c →
      (jobIds (sendConcurrentRequests.loop t b n k)).map GoInt.val
        = (List.range (t.val - k.val * b.val).toNat).map
            (fun (j : Nat) => k.val * b.val + (j : Int)) := by
  have hb := H.hb
  intro c
  induction c with
  | zero =>
    intro k _ h
    rw [sendConcurrentRequests.loop, if_neg (by omega)]
    have : n.val = k.val := by simpa using h
    have h2 := H.hi
    rw [this] at h2
    rw [show (t.val - k.val * b.val).toNat = 0 by omega]
    rfl
  | succ c ih =>
    intro k hk h
    have hN := n.hi
    have hT := t.hi
    have hkn : k.val < n.val := by omega
    rw [sendConcurrentRequests.loop, if_pos hkn]
    have e := GoInt.succ_val k (by omega)
    obtain ⟨es, hlt⟩ := startID_val H k hk hkn
    have em := requestsInBatch_val H k hk hkn
    have h0 : 0 ≤ k.val * b.val := Int.mul_nonneg hk (by omega)
    simp only [jobIds, List.flatMap_cons, List.map_append]
    have ih' := ih _ (by omega : 0 ≤ (k.add (GoInt.ofInt 1)).val) (by omega)
    simp only [jobIds] at ih'
    rw [ih', e, sendBatch_val _ _ (by omega) (by rw [em]; omega) (by rw [em, es]; omega),
      em, es]
    by_cases hcase : t.val - k.val * b.val ≤ b.val
    · rw [min_eq_right hcase,
        show (t.val - (k.val + 1) * b.val).toNat = 0 by
          have : (k.val + 1) * b.val = k.val * b.val + b.val := by ring
          omega]
      simp
    · rw [min_eq_left (by omega)]
      have hsplit : (t.val - k.val * b.val).toNat
          = b.val.toNat + (t.val - (k.val + 1) * b.val).toNat := by
        have : (k.val + 1) * b.val = k.val * b.val + b.val := by ring
        omega
      rw [hsplit, List.range_add, List.map_append, List.map_map]
      congr 1
      apply List.map_congr_left
      intro j _
      simp only [Function.comp, Nat.cast_add]
      rw [Int.toNat_of_nonneg (by omega)]
      ring

theorem Ceil.eq_ceil {t b n : GoInt} (H : Ceil t b n) :
    n.val = ⌈(t.val : ℚ) / (b.val : ℚ)⌉ := by
  have hb : (0 : ℚ) < (b.val : ℚ) := by exact_mod_cast H.hb
  symm
  rw [Int.ceil_eq_iff]
  constructor
  · rw [lt_div_iff₀ hb]
    exact_mod_cast H.lo
  · rw [div_le_iff₀ hb]
    exact_mod_cast H.hi

theorem Ceil.least {t b n : GoInt} (H : Ceil t b n) (m : Int) (h : t.val ≤ m * b.val) :
    n.val ≤ m := by
  by_contra hc
  have h1 : m * b.val ≤ (n.val - 1) * b.val :=
    Int.mul_le_mul_of_nonneg_right (by omega) (le_of_lt H.hb)
  have := H.lo
  omega

/-- C1 (amended). When `totalRequests + batchSize - 1` does not exceed the
largest `int`, the number of batches computed by `sendConcurrentRequests` for
positive arguments is `ceil(totalRequests / batchSize)`: the least `n` with
`n * batchSize >= totalRequests`. -/
theorem numBatches_is_ceil (totalRequests batchSize : GoInt)
    (ht : 0 < totalRequests.val) (hb : 0 < batchSize.val)
    (hov : totalRequests.val + batchSize.val - 1 ≤ maxInt) :
    ∃ n, numBatches totalRequests batchSize = .ok n ∧
      n.val = ⌈(totalRequests.val : ℚ) / (batchSize.val : ℚ)⌉ ∧
      totalRequests.val ≤ n.val * batchSize.val ∧
      ∀ m : Int, totalRequests.val ≤ m * batchSize.val → n.val ≤ m := by
  obtain ⟨n, hn, H⟩ := ceil_of_numBatches totalRequests batchSize ht hb hov
  exact ⟨n, hn, H.eq_ceil, H.hi, H.least⟩

/-- C1 (witness). The run `totalRequests = 10`, `batchSize = 3`. -/
theorem numBatches_is_ceil_witness :
    0 < (GoInt.ofInt 10).val ∧ 0 < (GoInt.ofInt 3).val ∧
      (GoInt.ofInt 10).val + (GoInt.ofInt 3).val - 1 ≤ maxInt ∧
      ∃ n, numBatches (GoInt.ofInt 10) (GoInt.ofInt 3) = .ok n ∧
        n.val = ⌈((GoInt.ofInt 10).val : ℚ) / ((GoInt.ofInt 3).val : ℚ)⌉ ∧
        (GoInt.ofInt 10).val ≤ n.val * (GoInt.ofInt 3).val ∧
        ∀ m : Int, (GoInt.ofInt 10).val ≤ m * (GoInt.ofInt 3).val → n.val ≤ m :=
  ⟨by decide, by decide, by decide,
    numBatches_is_ceil (GoInt.ofInt 10) (GoInt.ofInt 3) (by decide) (by decide) (by decide)⟩

/-- C1 (counterexample). For `totalRequests = 9223372036854775807` and
`batchSize = 2`, both positive, the sum `totalRequests + batchSize - 1` wraps
around and the computed number of batches is `-4611686018427387904`, which is
not the ceiling: `numBatches * batchSize` is below `totalRequests`. -/
theorem numBatches_overflow :
    0 < (GoInt.ofInt maxInt).val ∧ 0 < (GoInt.ofInt 2).val ∧
      numBatches (GoInt.ofInt maxInt) (GoInt.ofInt 2) = .ok (GoInt.ofInt (-(2 ^ 62))) ∧
      (GoInt.ofInt (-(2 ^ 62))).val = -4611686018427387904 ∧
      ¬ ((GoInt.ofInt maxInt).val ≤ (GoInt.ofInt (-(2 ^ 62))).val * (GoInt.ofInt 2).val) := by
  refine ⟨by decide, by decide, ?_, by decide, by decide⟩
  rfl

/-- The calls of a whole run, seen through their integer values. -/
theorem calls_of_run {t b n : GoInt} (H : Ceil t b n) :
    (sendConcurrentRequests.loop t b n (GoInt.ofInt 0)).map
        (fun x => (x.startID.val, x.requestsInBatch.val))
      = (List.range n.val.toNat).map (fun (j : Nat) =>
          ((j : Int) * b.val, Min.min b.val (t.val - (j : Int) * b.val))) := by
  have hp := H.pos
  rw [loop_calls H n.val.toNat (GoInt.ofInt 0) (by rw [GoInt.ofInt_zero_val])
    (by rw [GoInt.ofInt_zero_val]; omega)]
  simp [GoInt.ofInt_zero_val]

theorem run_eq {t b n : GoInt} (hn : numBatches t b = .ok n) :
    sendConcurrentRequests t b
      = .ok (sendConcurrentRequests.loop t b n (GoInt.ofInt 0)) := by
  unfold sendConcurrentRequests; rw [hn]

/-- When the computed number of batches is not positive, no batch is sent. -/
theorem run_empty {t b n : GoInt} (hn : numBatches t b = .ok n) (h : n.val ≤ 0) :
    sendConcurrentRequests t b = .ok [] := by
  rw [run_eq hn, sendConcurrentRequests.loop, if_neg (by rw [GoInt.ofInt_zero_val]; omega)]

/-- C2 (amended). When `totalRequests + batchSize - 1` does not exceed the
largest `int`, the request counts passed to `sendBatch` over a run of
`sendConcurrentRequests` with positive arguments sum to `totalRequests`. -/
theorem batch_counts_sum (totalRequests batchSize : GoInt)
    (ht : 0 < totalRequests.val) (hb : 0 < batchSize.val)
    (hov : totalRequests.val + batchSize.val - 1 ≤ maxInt) :
    ∃ calls, sendConcurrentRequests totalRequests batchSize = .ok calls ∧
      (calls.map (fun c => c.requestsInBatch.val)).sum = totalRequests.val := by
  obtain ⟨n, hn, H⟩ := ceil_of_numBatches totalRequests batchSize ht hb hov
  have hp := H.pos
  refine ⟨_, run_eq hn, ?_⟩
  have h1 := congrArg (List.map Prod.snd) (calls_of_run H)
  simp only [List.map_map] at h1
  have h2 : (Prod.snd ∘ fun (x : BatchCall) => (x.startID.val, x.requestsInBatch.val))
      = fun c => c.requestsInBatch.val := rfl
  rw [h2] at h1
  rw [h1]
  have h3 := sum_counts totalRequests.val batchSize.val n.val hb H.lo H.hi n.val.toNat 0
    (by omega)
  simp only [zero_add, zero_mul, sub_zero] at h3
  rw [if_neg (by omega)] at h3
  exact h3

/-- C2 (witness). The run `totalRequests = 10`, `batchSize = 3`. -/
theorem batch_counts_sum_witness :
    0 < (GoInt.ofInt 10).val ∧ 0 < (GoInt.ofInt 3).val ∧
      (GoInt.ofInt 10).val + (GoInt.ofInt 3).val - 1 ≤ maxInt ∧
      ∃ calls, sendConcurrentRequests (GoInt.ofInt 10) (GoInt.ofInt 3) = .ok calls ∧
        (calls.map (fun c => c.requestsInBatch.val)).sum = (GoInt.ofInt 10).val :=
  ⟨by decide, by decide, by decide,
    batch_counts_sum (GoInt.ofInt 10) (GoInt.ofInt 3) (by decide) (by decide) (by decide)⟩

/-- C2 (counterexample). For `totalRequests = 9223372036854775807` and
`batchSize = 2` the computed number of batches is negative, no batch is sent,
and the counts sum to `0`, not to `totalRequests`. -/
theorem batch_counts_sum_overflow :
    0 < (GoInt.ofInt maxInt).val ∧ 0 < (GoInt.ofInt 2).val ∧
      sendConcurrentRequests (GoInt.ofInt maxInt) (GoInt.ofInt 2) = .ok [] ∧
      (([] : List BatchCall).map (fun c => c.requestsInBatch.val)).sum
        ≠ (GoInt.ofInt maxInt).val := by
  refine ⟨by decide, by decide, ?_, by decide⟩
  exact run_empty (n := GoInt.ofInt (-(2 ^ 62))) (by rfl) (by decide)

/-- C3 (amended). When `totalRequests + batchSize - 1` does not exceed the
largest `int`, the job ids handed to `sendRequest` over a run of
`sendConcurrentRequests` with positive arguments are, in the order of the `go`
statements, exactly `0, 1, ..., totalRequests-1`: each once, and no other. -/
theorem job_ids_exact_range (totalRequests batchSize : GoInt)
    (ht : 0 < totalRequests.val) (hb : 0 < batchSize.val)
    (hov : totalRequests.val + batchSize.val - 1 ≤ maxInt) :
    ∃ calls, sendConcurrentRequests totalRequests batchSize = .ok calls ∧
      (jobIds calls).map GoInt.val
        = (List.range totalRequests.val.toNat).map (fun (i : Nat) => (i : Int)) := by
  obtain ⟨n, hn, H⟩ := ceil_of_numBatches totalRequests batchSize ht hb hov
  have hp := H.pos
  refine ⟨_, run_eq hn, ?_⟩
  rw [loop_ids H n.val.toNat (GoInt.ofInt 0) (by rw [GoInt.ofInt_zero_val])
    (by rw [GoInt.ofInt_zero_val]; omega)]
  simp [GoInt.ofInt_zero_val]

/-- The batch sizes of the run `totalRequests = 10`, `batchSize = 3`. -/
theorem ten_three_sizes :
    (sendConcurrentRequests.loop (GoInt.ofInt 10) (GoInt.ofInt 3) (GoInt.ofInt 4)
        (GoInt.ofInt 0)).map (fun c => c.requestsInBatch.val) = [3, 3, 3, 1] := by
  have H : Ceil (GoInt.ofInt 10) (GoInt.ofInt 3) (GoInt.ofInt 4) :=
    ⟨by decide, by decide, by decide, by decide⟩
  have h1 := congrArg (List.map Prod.snd) (calls_of_run H)
  simp only [List.map_map] at h1
  refine Eq.trans h1 ?_
  decide

/-- C3 (witness). The scenario `totalRequests = 10`, `batchSize = 3`: batches of
sizes `[3, 3, 3, 1]` and the ids `0 .. 9`, each once. -/
theorem job_ids_exact_range_witness :
    0 < (GoInt.ofInt 10).val ∧ 0 < (GoInt.ofInt 3).val ∧
      (GoInt.ofInt 10).val + (GoInt.ofInt 3).val - 1 ≤ maxInt ∧
      ∃ calls, sendConcurrentRequests (GoInt.ofInt 10) (GoInt.ofInt 3) = .ok calls ∧
        calls.map (fun c => c.requestsInBatch.val) = [3, 3, 3, 1] ∧
        (jobIds calls).map GoInt.val = [0, 1, 2, 3, 4, 5, 6, 7, 8, 9] := by
  refine ⟨by decide, by decide, by decide, ?_⟩
  obtain ⟨calls, h1, h2⟩ :=
    job_ids_exact_range (GoInt.ofInt 10) (GoInt.ofInt 3) (by decide) (by decide) (by decide)
  have h3 : sendConcurrentRequests (GoInt.ofInt 10) (GoInt.ofInt 3)
      = .ok (sendConcurrentRequests.loop (GoInt.ofInt 10) (GoInt.ofInt 3) (GoInt.ofInt 4)
          (GoInt.ofInt 0)) := run_eq (by rfl)
  have h4 : calls = sendConcurrentRequests.loop (GoInt.ofInt 10) (GoInt.ofInt 3)
      (GoInt.ofInt 4) (GoInt.ofInt 0) := by
    rw [h1] at h3; exact Except.ok.inj h3
  refine ⟨calls, h1, by rw [h4]; exact ten_three_sizes, ?_⟩
  rw [h2]; decide

/-- C3 (counterexample). For `totalRequests = 9223372036854775807` and
`batchSize = 2` no batch is sent, so no job id is handed out at all: the id `0`
of the range `0 .. totalRequests-1` does not occur. -/
theorem job_ids_overflow :
    0 < (GoInt.ofInt maxInt).val ∧ 0 < (GoInt.ofInt 2).val ∧
      sendConcurrentRequests (GoInt.ofInt maxInt) (GoInt.ofInt 2) = .ok [] ∧
      (0 : Int) ∉ (jobIds []).map GoInt.val := by
  refine ⟨by decide, by decide, ?_, by simp [jobIds]⟩
  exact run_empty (n := GoInt.ofInt (-(2 ^ 62))) (by rfl) (by decide)

/-- C4 (amended). When `totalRequests + batchSize - 1` does not exceed the
largest `int`, a run of `sendConcurrentRequests` with positive arguments makes
`numBatches >= 1` calls of `sendBatch`; every batch has between `1` and
`batchSize` requests, every batch but the last has exactly `batchSize`, and the
last has `totalRequests - (numBatches-1)*batchSize`. -/
theorem batch_sizes (totalRequests batchSize : GoInt)
    (ht : 0 < totalRequests.val) (hb : 0 < batchSize.val)
    (hov : totalRequests.val + batchSize.val - 1 ≤ maxInt) :
    ∃ n calls, numBatches totalRequests batchSize = .ok n ∧
      sendConcurrentRequests totalRequests batchSize = .ok calls ∧
      0 < n.val ∧ (calls.length : Int) = n.val ∧
      ∀ (i : Nat) (c : BatchCall), calls[i]? = some c →
        (1 ≤ c.requestsInBatch.val ∧ c.requestsInBatch.val ≤ batchSize.val) ∧
        ((i : Int) + 1 < n.val → c.requestsInBatch.val = batchSize.val) ∧
        ((i : Int) + 1 = n.val →
          c.requestsInBatch.val = totalRequests.val - (n.val - 1) * batchSize.val) := by
  obtain ⟨n, hn, H⟩ := ceil_of_numBatches totalRequests batchSize ht hb hov
  have hp := H.pos
  have hc := calls_of_run H
  have hlen := congrArg List.length hc
  simp only [List.length_map, List.length_range] at hlen
  refine ⟨n, _, hn, run_eq hn, hp, by rw [hlen]; omega, ?_⟩
  intro i c hi
  have h1 := congrArg (fun l => l[i]?) hc
  simp only [List.getElem?_map, hi, Option.map_some'] at h1
  have hlt : i < n.val.toNat := by
    rw [← hlen]
    exact (List.getElem?_eq_some_iff.mp hi).1
  rw [List.getElem?_range hlt] at h1
  simp only [Option.map_some', Option.some.injEq, Prod.mk.injEq] at h1
  have h2 := h1.2
  have hin : (i : Int) ≤ n.val - 1 := by omega
  have hmul : (i : Int) * batchSize.val ≤ (n.val - 1) * batchSize.val :=
    Int.mul_le_mul_of_nonneg_right hin (le_of_lt hb)
  have hlo := H.lo
  have hhi := H.hi
  refine ⟨⟨?_, ?_⟩, ?_, ?_⟩
  · rw [h2]; exact le_min (by omega) (by omega)
  · rw [h2]; exact min_le_left _ _
  · intro hlast
    rw [h2, min_eq_left]
    have hmul2 : ((i : Int) + 1) * batchSize.val ≤ (n.val - 1) * batchSize.val :=
      Int.mul_le_mul_of_nonneg_right (by omega) (le_of_lt hb)
    have : ((i : Int) + 1) * batchSize.val = (i : Int) * batchSize.val + batchSize.val := by
      ring
    omega
  · intro hlast
    have : (i : Int) = n.val - 1 := by omega
    rw [h2, this, min_eq_right]
    have : n.val * batchSize.val = (n.val - 1) * batchSize.val + batchSize.val := by ring
    omega

/-- The only batch of the run `totalRequests = 5`, `batchSize = 10`. -/
theorem five_ten_sizes :
    (sendConcurrentRequests.loop (GoInt.ofInt 5) (GoInt.ofInt 10) (GoInt.ofInt 1)
        (GoInt.ofInt 0)).map (fun c => (c.startID.val, c.requestsInBatch.val)) = [(0, 5)] := by
  have H : Ceil (GoInt.ofInt 5) (GoInt.ofInt 10) (GoInt.ofInt 1) :=
    ⟨by decide, by decide, by decide, by decide⟩
  refine Eq.trans (calls_of_run H) ?_
  decide

/-- C4 (witness). The scenario `totalRequests = 5`, `batchSize = 10`: a single
batch, of size 5, starting at id 0. -/
theorem batch_sizes_witness :
    0 < (GoInt.ofInt 5).val ∧ 0 < (GoInt.ofInt 10).val ∧
      (GoInt.ofInt 5).val + (GoInt.ofInt 10).val - 1 ≤ maxInt ∧
      (∃ n calls, numBatches (GoInt.ofInt 5) (GoInt.ofInt 10) = .ok n ∧
        sendConcurrentRequests (GoInt.ofInt 5) (GoInt.ofInt 10) = .ok calls ∧
        0 < n.val ∧ (calls.length : Int) = n.val ∧
        ∀ (i : Nat) (c : BatchCall), calls[i]? = some c →
          (1 ≤ c.requestsInBatch.val ∧ c.requestsInBatch.val ≤ (GoInt.ofInt 10).val) ∧
          ((i : Int) + 1 < n.val → c.requestsInBatch.val = (GoInt.ofInt 10).val) ∧
          ((i : Int) + 1 = n.val →
            c.requestsInBatch.val
              = (GoInt.ofInt 5).val - (n.val - 1) * (GoInt.ofInt 10).val)) ∧
      ∃ calls, sendConcurrentRequests (GoInt.ofInt 5) (GoInt.ofInt 10) = .ok calls ∧
        calls.map (fun c => (c.startID.val, c.requestsInBatch.val)) = [(0, 5)] :=
  ⟨by decide, by decide, by decide,
    batch_sizes (GoInt.ofInt 5) (GoInt.ofInt 10) (by decide) (by decide) (by decide),
    _, run_eq (n := GoInt.ofInt 1) (by rfl), five_ten_sizes⟩

/-- C4 (counterexample). For `totalRequests = batchSize = 9223372036854775807`
the sum `totalRequests + batchSize - 1` wraps around to `-3`, the computed
number of batches is `0` and no batch is sent: there is no last batch, and
`totalRequests - (numBatches-1)*batchSize` is not in `[1, batchSize]`. -/
theorem batch_sizes_overflow :
    0 < (GoInt.ofInt maxInt).val ∧
      numBatches (GoInt.ofInt maxInt) (GoInt.ofInt maxInt) = .ok (GoInt.ofInt 0) ∧
      sendConcurrentRequests (GoInt.ofInt maxInt) (GoInt.ofInt maxInt) = .ok [] ∧
      ¬ ((GoInt.ofInt maxInt).val - ((GoInt.ofInt 0).val - 1) * (GoInt.ofInt maxInt).val
          ≤ (GoInt.ofInt maxInt).val) := by
  refine ⟨by decide, by rfl, ?_, by decide⟩
  exact run_empty (n := GoInt.ofInt 0) (by rfl) (by decide)

/-! ## The random integers -/

/-- Without overflow of `max - min + 1`, `randomInt` returns `min` plus the draw
reduced modulo `max - min + 1`. -/
theorem randomInt_ok (src : Nat) (min max : GoInt) (h : min.val ≤ max.val)
    (hov : max.val - min.val < maxInt) :
    ∃ r, randomInt src min max = .ok r ∧
      r.val = min.val + (src : Int) % (max.val - min.val + 1) := by
  have hm : minInt < 0 := by decide
  have h1 := min.lo
  have h2 := max.hi
  have h3 := min.hi
  have en : ((max.sub min).add (GoInt.ofInt 1)).val = max.val - min.val + 1 := by
    rw [GoInt.add_val, GoInt.sub_val, GoInt.ofInt_one_val] <;>
      (try rw [GoInt.sub_val]) <;> (try rw [GoInt.ofInt_one_val]) <;> omega
  have hr0 := Int.emod_nonneg (src : Int) (show max.val - min.val + 1 ≠ 0 by omega)
  have hr1 := Int.emod_lt_of_pos (src : Int) (show 0 < max.val - min.val + 1 by omega)
  unfold randomInt Intn
  rw [if_neg (by rw [en]; omega)]
  refine ⟨_, rfl, ?_⟩
  rw [en]
  have er : (GoInt.ofInt ((src : Int) % (max.val - min.val + 1))).val
      = (src : Int) % (max.val - min.val + 1) := GoInt.ofInt_val _ (by omega) (by omega)
  rw [GoInt.add_val _ _ (by rw [er]; omega) (by rw [er]; omega), er]
  ring

/-- C5 (amended). For `min <= max` with `max - min` below the largest `int`,
`randomInt(min, max)` does not panic, every value it returns lies in
`[min, max]`, and both `min` and `max` are returned for some draw. -/
theorem randomInt_range (min max : GoInt) (h : min.val ≤ max.val)
    (hov : max.val - min.val < maxInt) :
    (∀ src, ∃ r, randomInt src min max = .ok r ∧ min.val ≤ r.val ∧ r.val ≤ max.val) ∧
      (∃ src, randomInt src min max = .ok min) ∧
      (∃ src, randomInt src min max = .ok max) := by
  refine ⟨?_, ⟨0, ?_⟩, ⟨(max.val - min.val).toNat, ?_⟩⟩
  · intro src
    obtain ⟨r, h1, h2⟩ := randomInt_ok src min max h hov
    have hr0 := Int.emod_nonneg (src : Int) (show max.val - min.val + 1 ≠ 0 by omega)
    have hr1 := Int.emod_lt_of_pos (src : Int) (show 0 < max.val - min.val + 1 by omega)
    exact ⟨r, h1, by omega, by omega⟩
  · obtain ⟨r, h1, h2⟩ := randomInt_ok 0 min max h hov
    rw [h1]
    congr 1
    apply GoInt.ext_val
    rw [h2]; simp
  · obtain ⟨r, h1, h2⟩ := randomInt_ok (max.val - min.val).toNat min max h hov
    rw [h1]
    congr 1
    apply GoInt.ext_val
    rw [h2, Int.toNat_of_nonneg (by omega), Int.emod_eq_of_lt (by omega) (by omega)]
    ring

/-- C5 (witness). The call `randomInt(500, 100000)` of `sendRequest`. -/
theorem randomInt_range_witness :
    (GoInt.ofInt 500).val ≤ (GoInt.ofInt 100000).val ∧
      (GoInt.ofInt 100000).val - (GoInt.ofInt 500).val < maxInt ∧
      ((∀ src, ∃ r, randomInt src (GoInt.ofInt 500) (GoInt.ofInt 100000) = .ok r ∧
          (GoInt.ofInt 500).val ≤ r.val ∧ r.val ≤ (GoInt.ofInt 100000).val) ∧
        (∃ src, randomInt src (GoInt.ofInt 500) (GoInt.ofInt 100000)
          = .ok (GoInt.ofInt 500)) ∧
        (∃ src, randomInt src (GoInt.ofInt 500) (GoInt.ofInt 100000)
          = .ok (GoInt.ofInt 100000))) :=
  ⟨by decide, by decide,
    randomInt_range (GoInt.ofInt 500) (GoInt.ofInt 100000) (by decide) (by decide)⟩

/-- C5 (counterexample). For `min = 0 <= max = 9223372036854775807` the
argument `max - min + 1` of `rand.Intn` wraps around to the smallest `int`, and
`randomInt` panics, whatever the draw. -/
theorem randomInt_overflow :
    (GoInt.ofInt 0).val ≤ (GoInt.ofInt maxInt).val ∧
      ((GoInt.ofInt maxInt).sub (GoInt.ofInt 0)).add (GoInt.ofInt 1) = GoInt.ofInt minInt ∧
      randomInt 0 (GoInt.ofInt 0) (GoInt.ofInt maxInt)
        = .error "invalid argument to Intn" ∧
      ∀ src, randomInt src (GoInt.ofInt 0) (GoInt.ofInt maxInt)
        = .error "invalid argument to Intn" := by
  have h : ∀ src, randomInt src (GoInt.ofInt 0) (GoInt.ofInt maxInt)
      = .error "invalid argument to Intn" := by
    intro src
    unfold randomInt Intn
    rw [if_pos (by decide)]
  exact ⟨by decide, by decide, h 0, h⟩

/-! ## The command line action -/

/-- With a non-zero batch size `sendConcurrentRequests` does not panic. -/
theorem sendConcurrentRequests_ok (t b : GoInt) (hb : b.val ≠ 0) :
    ∃ calls, sendConcurrentRequests t b = .ok calls := by
  unfold sendConcurrentRequests numBatches GoInt.quo
  rw [if_neg hb]
  exact ⟨_, rfl⟩

/-- The call of `sendConcurrentRequests` in the action returns. -/
theorem action_call (t b : GoInt) (h : ¬ (t.val = 0 ∨ b.val = 0)) :
    (match sendConcurrentRequests t b with
      | .error e => (.error e : Except String ActionResult)
      | .ok _ => .ok ⟨[(t, b)], none⟩) = .ok ⟨[(t, b)], none⟩ := by
  obtain ⟨calls, hc⟩ := sendConcurrentRequests_ok t b (fun hb => h (Or.inr hb))
  rw [hc]

/-- C9. The action resolves `totalRequests` and `batchSize` (the option if it
is set, else positional argument 0, respectively 1). It returns an exit error
with status 1 and does not call `sendConcurrentRequests` when a positional
argument it uses is not an integer (the conversion fails) or a resolved value
is zero or was not supplied; otherwise it calls `sendConcurrentRequests` once,
with the resolved values, and returns `nil`. -/
theorem action_resolves (atoi : String → Except String GoInt) (cCtx : Context) :
    match specResolve atoi cCtx.requests cCtx.args[0]?,
        specResolve atoi cCtx.batchSize cCtx.args[1]? with
    | .value t, .value b =>
      if t.val = 0 ∨ b.val = 0 then
        ∃ msg, Action atoi cCtx = .ok ⟨[], some ⟨msg, 1⟩⟩
      else Action atoi cCtx = .ok ⟨[(t, b)], none⟩
    | _, _ => ∃ msg, Action atoi cCtx = .ok ⟨[], some ⟨msg, 1⟩⟩ := by
  obtain ⟨req, bs, args⟩ := cCtx
  have z : (GoInt.ofInt 0).val = 0 := GoInt.ofInt_zero_val
  rcases args with _ | ⟨a, _ | ⟨b, rest⟩⟩
  · cases req <;> cases bs <;> simp [Action, Context.IsSet, Context.Int, specResolve, z]
    split_ifs with h
    · exact ⟨_, rfl⟩
    · exact action_call _ _ h
  · cases ha : atoi a <;> cases req <;> cases bs <;>
      simp [Action, Context.IsSet, Context.Int, specResolve, z, ha] <;>
      split_ifs with h <;> first | exact ⟨_, rfl⟩ | exact action_call _ _ h
  · cases ha : atoi a <;> cases hb : atoi b <;> cases req <;> cases bs <;>
      simp [Action, Context.IsSet, Context.Int, specResolve, z, ha, hb] <;>
      split_ifs with h <;> first | exact ⟨_, rfl⟩ | exact action_call _ _ h

/-- C9 (examples). The action on three command lines, with the conversion
`Atoi`: `10 3` runs 10 requests in batches of 3; `--requests 10 3` has no
positional argument 1 and fails; `--batch-size 5 ten` fails on `ten`. -/
theorem action_examples :
    Action Atoi ⟨none, none, ["10", "3"]⟩ = .ok ⟨[(GoInt.ofInt 10, GoInt.ofInt 3)], none⟩ ∧
    Action Atoi ⟨some (GoInt.ofInt 10), none, ["3"]⟩
      = .ok ⟨[], some ⟨"Please provide valid values for total requests and batch size.", 1⟩⟩ ∧
    Action Atoi ⟨none, some (GoInt.ofInt 5), ["ten"]⟩
      = .ok ⟨[], some ⟨"Invalid value for total requests. Expected an integer.", 1⟩⟩ := by
  refine ⟨?_, ?_, ?_⟩ <;> rfl

/-! ## Rounding to the nearest integer, ties to even -/

theorem roundHalfEven_cases (t : ℚ) :
    roundHalfEven t = ⌊t⌋ ∨ roundHalfEven t = ⌊t⌋ + 1 := by
  unfold roundHalfEven
  dsimp only
  split_ifs <;> simp

theorem roundHalfEven_intCast (z : Int) : roundHalfEven (z : ℚ) = z := by
  unfold roundHalfEven
  simp

/-- The rounded value is within one half of the argument. -/
theorem roundHalfEven_sub_le (t : ℚ) :
    (roundHalfEven t : ℚ) - t ≤ 1 / 2 ∧ t - (roundHalfEven t : ℚ) ≤ 1 / 2 := by
  have h1 := Int.floor_le t
  have h2 := Int.lt_floor_add_one t
  unfold roundHalfEven
  dsimp only
  split_ifs with h3 h4 h5
  · constructor <;> linarith
  · push_cast; constructor <;> linarith
  · constructor <;> linarith
  · push_cast; constructor <;> linarith

theorem roundHalfEven_mono {t s : ℚ} (h : t ≤ s) : roundHalfEven t ≤ roundHalfEven s := by
  have hf : ⌊t⌋ ≤ ⌊s⌋ := Int.floor_le_floor h
  rcases lt_or_eq_of_le hf with hlt | heq
  · have h1 : roundHalfEven t ≤ ⌊t⌋ + 1 := by
      rcases roundHalfEven_cases t with h | h <;> omega
    have h2 : ⌊s⌋ ≤ roundHalfEven s := by
      rcases roundHalfEven_cases s with h | h <;> omega
    omega
  · unfold roundHalfEven
    dsimp only
    rw [← heq]
    split_ifs <;> first | omega | (exfalso; linarith)

theorem roundHalfEven_le_int {t : ℚ} {z : Int} (h : t ≤ z) : roundHalfEven t ≤ z := by
  have := roundHalfEven_mono h
  rwa [roundHalfEven_intCast] at this

theorem int_le_roundHalfEven {t : ℚ} {z : Int} (h : (z : ℚ) ≤ t) : z ≤ roundHalfEven t := by
  have := roundHalfEven_mono h
  rwa [roundHalfEven_intCast] at this

theorem roundHalfEven_neg (t : ℚ) : roundHalfEven (-t) = -roundHalfEven t := by
  by_cases hint : (⌊t⌋ : ℚ) = t
  · rw [← hint, ← Int.cast_neg, roundHalfEven_intCast, roundHalfEven_intCast]
  · have h1 := Int.floor_le t
    have h2 := Int.lt_floor_add_one t
    have h3 : (⌊t⌋ : ℚ) < t := lt_of_le_of_ne h1 hint
    have hfl : ⌊-t⌋ = -⌊t⌋ - 1 := by
      rw [Int.floor_eq_iff]
      push_cast
      constructor <;> linarith
    unfold roundHalfEven
    dsimp only
    rw [hfl]
    push_cast
    split_ifs <;> first | omega | (exfalso; linarith)

/-! ## The binary64 grid -/

theorem two_zpow_pos (e : Int) : (0 : ℚ) < 2 ^ e := zpow_pos (by norm_num) e

theorem two_zpow_le {a b : Int} (h : a ≤ b) : (2 : ℚ) ^ a ≤ 2 ^ b :=
  zpow_le_zpow_right₀ (by norm_num) h

theorem zpow_log_le {a : ℚ} (ha : 0 < a) : (2 : ℚ) ^ Int.log 2 a ≤ a := by
  have := Int.zpow_log_le_self (b := 2) (by norm_num) ha
  simpa using this

theorem lt_zpow_log_succ (a : ℚ) : a < (2 : ℚ) ^ (Int.log 2 a + 1) := by
  have := Int.lt_zpow_succ_log_self (b := 2) (by norm_num) a
  simpa using this

theorem ulpExp_ge (x : ℚ) : -1074 ≤ ulpExp x := le_max_right _ _

theorem ulpExp_ge_log (x : ℚ) : Int.log 2 |x| - 52 ≤ ulpExp x := le_max_left _ _

theorem ulpExp_neg (x : ℚ) : ulpExp (-x) = ulpExp x := by
  unfold ulpExp; rw [abs_neg]

theorem ulpExp_mono {x y : ℚ} (hx : x ≠ 0) (h : |x| ≤ |y|) : ulpExp x ≤ ulpExp y := by
  unfold ulpExp
  have := Int.log_mono_right (b := 2) (abs_pos.mpr hx) h
  exact max_le_max (by omega) le_rfl

/-- The significand of a number, scaled by its unit in the last place, is below
`2 ^ 53`. -/
theorem scaled_lt (x : ℚ) : |x| / 2 ^ ulpExp x < 2 ^ 53 := by
  rw [div_lt_iff₀ (two_zpow_pos _)]
  have h1 := lt_zpow_log_succ |x|
  have h2 : (2 : ℚ) ^ (Int.log 2 |x| + 1) ≤ 2 ^ (53 + ulpExp x) :=
    two_zpow_le (by have := ulpExp_ge_log x; omega)
  have h3 : (2 : ℚ) ^ (53 + ulpExp x) = 2 ^ 53 * 2 ^ ulpExp x := by
    rw [zpow_add₀ (by norm_num)]; norm_num
  linarith

/-- In the normal range the scaled significand is at least `2 ^ 52`. -/
theorem scaled_ge {x : ℚ} (hx : x ≠ 0) (hn : -1074 < ulpExp x) :
    2 ^ 52 ≤ |x| / 2 ^ ulpExp x := by
  rw [le_div_iff₀ (two_zpow_pos _)]
  have he : ulpExp x = Int.log 2 |x| - 52 := by
    unfold ulpExp at hn ⊢
    rcases max_cases (Int.log 2 |x| - 52) (-1074) with ⟨h, _⟩ | ⟨h, _⟩
    · exact h
    · rw [h] at hn; omega
  have h1 := zpow_log_le (abs_pos.mpr hx)
  have h3 : (2 : ℚ) ^ Int.log 2 |x| = 2 ^ 52 * 2 ^ ulpExp x := by
    rw [he, show Int.log 2 |x| = 52 + (Int.log 2 |x| - 52) by ring, zpow_add₀ (by norm_num)]
    norm_num
  linarith

theorem roundToGrid_zero : roundToGrid 0 = 0 := by
  unfold roundToGrid
  rw [zero_div, show (0 : ℚ) = ((0 : Int) : ℚ) by norm_num, roundHalfEven_intCast]
  simp

theorem roundToGrid_neg (x : ℚ) : roundToGrid (-x) = -roundToGrid x := by
  unfold roundToGrid
  rw [ulpExp_neg, neg_div, roundHalfEven_neg]
  push_cast; ring

theorem roundToGrid_nonneg {x : ℚ} (hx : 0 ≤ x) : 0 ≤ roundToGrid x := by
  unfold roundToGrid
  have h1 : (0 : ℚ) ≤ x / 2 ^ ulpExp x := div_nonneg hx (le_of_lt (two_zpow_pos _))
  have h2 : (0 : Int) ≤ roundHalfEven (x / 2 ^ ulpExp x) :=
    int_le_roundHalfEven (by simpa using h1)
  have h3 : (0 : ℚ) ≤ (roundHalfEven (x / 2 ^ ulpExp x) : ℚ) := by exact_mod_cast h2
  exact mul_nonneg h3 (le_of_lt (two_zpow_pos _))

theorem roundToGrid_mono_pos {x y : ℚ} (hx : 0 < x) (h : x ≤ y) :
    roundToGrid x ≤ roundToGrid y := by
  have hy : 0 < y := lt_of_lt_of_le hx h
  have he : ulpExp x ≤ ulpExp y :=
    ulpExp_mono (ne_of_gt hx) (by rw [abs_of_pos hx, abs_of_pos hy]; exact h)
  rcases eq_or_lt_of_le he with heq | hlt
  · unfold roundToGrid
    rw [← heq]
    have h1 : x / 2 ^ ulpExp x ≤ y / 2 ^ ulpExp x :=
      div_le_div_of_nonneg_right h (le_of_lt (two_zpow_pos _))
    have h2 : (roundHalfEven (x / 2 ^ ulpExp x) : ℚ) ≤ roundHalfEven (y / 2 ^ ulpExp x) := by
      exact_mod_cast roundHalfEven_mono h1
    exact mul_le_mul_of_nonneg_right h2 (le_of_lt (two_zpow_pos _))
  · have hxs := scaled_lt x
    rw [abs_of_pos hx] at hxs
    have hys := scaled_ge (ne_of_gt hy) (by have := ulpExp_ge x; omega)
    rw [abs_of_pos hy] at hys
    have h1 : roundHalfEven (x / 2 ^ ulpExp x) ≤ (2 ^ 53 : Int) :=
      roundHalfEven_le_int (by push_cast; exact le_of_lt hxs)
    have h2 : (2 ^ 52 : Int) ≤ roundHalfEven (y / 2 ^ ulpExp y) :=
      int_le_roundHalfEven (by push_cast; exact hys)
    have h1' : (roundHalfEven (x / 2 ^ ulpExp x) : ℚ) ≤ 2 ^ 53 := by exact_mod_cast h1
    have h2' : (2 ^ 52 : ℚ) ≤ roundHalfEven (y / 2 ^ ulpExp y) := by exact_mod_cast h2
    have h3 : (2 : ℚ) ^ (ulpExp x + 1) ≤ 2 ^ ulpExp y := two_zpow_le (by omega)
    have h4 : (2 : ℚ) ^ (ulpExp x + 1) = 2 ^ ulpExp x * 2 := by
      rw [zpow_add₀ (by norm_num)]; norm_num
    have px := two_zpow_pos (ulpExp x)
    have py := two_zpow_pos (ulpExp y)
    unfold roundToGrid
    calc (roundHalfEven (x / 2 ^ ulpExp x) : ℚ) * 2 ^ ulpExp x
        ≤ 2 ^ 53 * 2 ^ ulpExp x := mul_le_mul_of_nonneg_right h1' (le_of_lt px)
      _ = 2 ^ 52 * (2 ^ ulpExp x * 2) := by ring
      _ ≤ 2 ^ 52 * 2 ^ ulpExp y := by rw [← h4]; exact mul_le_mul_of_nonneg_left h3 (by norm_num)
      _ ≤ (roundHalfEven (y / 2 ^ ulpExp y) : ℚ) * 2 ^ ulpExp y :=
          mul_le_mul_of_nonneg_right h2' (le_of_lt py)

/-- Rounding to the grid is monotone. -/
theorem roundToGrid_mono {x y : ℚ} (h : x ≤ y) : roundToGrid x ≤ roundToGrid y := by
  rcases lt_trichotomy 0 x with hx | hx | hx
  · exact roundToGrid_mono_pos hx h
  · rw [← hx, roundToGrid_zero]
    exact roundToGrid_nonneg (by rw [hx]; exact h)
  · rcases le_or_lt 0 y with hy | hy
    · have h1 := roundToGrid_nonneg (show 0 ≤ -x by linarith)
      rw [roundToGrid_neg] at h1
      have h2 := roundToGrid_nonneg hy
      linarith
    · have h1 := roundToGrid_mono_pos (show 0 < -y by linarith) (show -y ≤ -x by linarith)
      rw [roundToGrid_neg, roundToGrid_neg] at h1
      linarith

theorem log_lt_of_lt_zpow {a : ℚ} (ha : 0 < a) {k : Int} (h : a < 2 ^ k) : Int.log 2 a < k := by
  have := (Int.lt_zpow_iff_log_lt (b := 2) (by norm_num) ha (x := k)).mp (by simpa using h)
  exact this

theorem roundToGrid_exact_lt (m e : Int) (hm : |m| < 2 ^ 53) (he : -1074 ≤ e) :
    roundToGrid ((m : ℚ) * 2 ^ e) = (m : ℚ) * 2 ^ e := by
  by_cases h0 : m = 0
  · subst h0; simp [roundToGrid_zero]
  have hx : (m : ℚ) * 2 ^ e ≠ 0 :=
    mul_ne_zero (by exact_mod_cast h0) (ne_of_gt (two_zpow_pos e))
  have habs : |(m : ℚ) * 2 ^ e| < 2 ^ (e + 53) := by
    rw [abs_mul, abs_of_pos (two_zpow_pos e), zpow_add₀ (by norm_num : (2 : ℚ) ≠ 0)]
    have h1 : |(m : ℚ)| < 2 ^ 53 := by exact_mod_cast hm
    have := two_zpow_pos e
    have h2 : (2 : ℚ) ^ (53 : Int) = 2 ^ 53 := by norm_num
    rw [h2]
    nlinarith
  have hlog := log_lt_of_lt_zpow (abs_pos.mpr hx) habs
  have hE : ulpExp ((m : ℚ) * 2 ^ e) ≤ e := by
    unfold ulpExp
    exact max_le (by omega) he
  obtain ⟨k, hk⟩ : ∃ k : Nat, e = ulpExp ((m : ℚ) * 2 ^ e) + k :=
    ⟨(e - ulpExp ((m : ℚ) * 2 ^ e)).toNat, by omega⟩
  unfold roundToGrid
  have hdiv : (m : ℚ) * 2 ^ e / 2 ^ ulpExp ((m : ℚ) * 2 ^ e) = ((m * 2 ^ k : Int) : ℚ) := by
    rw [div_eq_iff (ne_of_gt (two_zpow_pos _))]
    conv_lhs => rw [hk]
    rw [zpow_add₀ (by norm_num : (2 : ℚ) ≠ 0)]
    push_cast
    rw [zpow_natCast]
    ring
  rw [hdiv, roundHalfEven_intCast, ← hdiv]
  rw [div_mul_cancel₀ _ (ne_of_gt (two_zpow_pos _))]

/-- A number with a significand of at most 53 bits and an exponent in range is
on the grid: rounding does not change it. -/
theorem roundToGrid_exact (m e : Int) (hm : |m| ≤ 2 ^ 53) (he : -1074 ≤ e) :
    roundToGrid ((m : ℚ) * 2 ^ e) = (m : ℚ) * 2 ^ e := by
  rcases lt_or_eq_of_le hm with h | h
  · exact roundToGrid_exact_lt m e h he
  · have e2 : ∀ s : Int, |s| = 1 →
        roundToGrid (((s * 2 ^ 53 : Int) : ℚ) * 2 ^ e) = ((s * 2 ^ 53 : Int) : ℚ) * 2 ^ e := by
      intro s hs
      have key : ((s * 2 ^ 53 : Int) : ℚ) * 2 ^ e = ((s * 2 ^ 52 : Int) : ℚ) * 2 ^ (e + 1) := by
        rw [zpow_add₀ (by norm_num : (2 : ℚ) ≠ 0)]
        push_cast
        ring
      rw [key]
      apply roundToGrid_exact_lt _ _ _ (by omega)
      rw [abs_mul, hs]
      norm_num
    rcases abs_eq (by norm_num : (0 : Int) ≤ 2 ^ 53) |>.mp h with h' | h'
    · have := e2 1 (by norm_num)
      rw [h']; simpa using this
    · have := e2 (-1) (by norm_num)
      rw [h']; simpa using this

/-- The significand chosen by the rounding has at most 53 bits, or is `2 ^ 53`. -/
theorem significand_le (x : ℚ) : |roundHalfEven (x / 2 ^ ulpExp x)| ≤ 2 ^ 53 := by
  have h := scaled_lt x
  have hp := two_zpow_pos (ulpExp x)
  rw [← abs_of_pos hp, ← abs_div, abs_lt] at h
  rw [abs_le]
  constructor
  · exact int_le_roundHalfEven (by push_cast; linarith [h.1])
  · exact roundHalfEven_le_int (by push_cast; linarith [h.2])

theorem roundToGrid_idem (x : ℚ) : roundToGrid (roundToGrid x) = roundToGrid x := by
  have := roundToGrid_exact (roundHalfEven (x / 2 ^ ulpExp x)) (ulpExp x) (significand_le x)
    (ulpExp_ge x)
  exact this

/-- The rounding error is at most half a unit in the last place. -/
theorem roundToGrid_error (x : ℚ) :
    |roundToGrid x - x| ≤ 2 ^ ulpExp x / 2 := by
  have h := roundHalfEven_sub_le (x / 2 ^ ulpExp x)
  have hp := two_zpow_pos (ulpExp x)
  have hx : x = x / 2 ^ ulpExp x * 2 ^ ulpExp x := by
    rw [div_mul_cancel₀ _ (ne_of_gt hp)]
  unfold roundToGrid
  rw [abs_le]
  constructor
  · have : x / 2 ^ ulpExp x * 2 ^ ulpExp x - (roundHalfEven (x / 2 ^ ulpExp x) : ℚ) * 2 ^ ulpExp x
        ≤ 1 / 2 * 2 ^ ulpExp x := by
      rw [← sub_mul]
      exact mul_le_mul_of_nonneg_right h.2 (le_of_lt hp)
    rw [← hx] at this
    linarith
  · have : (roundHalfEven (x / 2 ^ ulpExp x) : ℚ) * 2 ^ ulpExp x - x / 2 ^ ulpExp x * 2 ^ ulpExp x
        ≤ 1 / 2 * 2 ^ ulpExp x := by
      rw [← sub_mul]
      exact mul_le_mul_of_nonneg_right h.1 (le_of_lt hp)
    rw [← hx] at this
    linarith

/-! ## Operations on finite `float64` values -/

theorem maxFloat64_onGrid : roundToGrid maxFloat64 = maxFloat64 := by
  have h := roundToGrid_exact (2 ^ 53 - 1) 971 (by norm_num) (by norm_num)
  have e : (((2 ^ 53 - 1 : Int) : ℚ)) * 2 ^ (971 : Int) = maxFloat64 := by
    unfold maxFloat64
    push_cast
    norm_num
  rwa [e] at h

/-- No overflow: the rounded value of a number within the finite range is
finite. -/
theorem round_of_abs_le {x : ℚ} (h : |x| ≤ maxFloat64) :
    Float64.round x = .finite (roundToGrid x) := by
  rw [abs_le] at h
  have h1 := roundToGrid_mono h.2
  have h2 := roundToGrid_mono h.1
  rw [maxFloat64_onGrid] at h1
  rw [roundToGrid_neg, maxFloat64_onGrid] at h2
  unfold Float64.round
  dsimp only
  rw [if_neg (not_lt.mpr h1), if_neg (not_lt.mpr h2)]

theorem maxFloat64_large : (2 : ℚ) ^ 10 ≤ maxFloat64 := by
  unfold maxFloat64
  norm_num

theorem round_of_abs_le_small {x : ℚ} (h : |x| ≤ 2 ^ 10) :
    Float64.round x = .finite (roundToGrid x) :=
  round_of_abs_le (le_trans h maxFloat64_large)

/-- A dyadic number with a short numerator is on the grid. -/
theorem roundToGrid_dyadic (m : Int) (k : Nat) (hm : |m| ≤ 2 ^ 53) (hk : k ≤ 1074) :
    roundToGrid ((m : ℚ) / 2 ^ k) = (m : ℚ) / 2 ^ k := by
  have h := roundToGrid_exact m (-(k : Int)) hm (by omega)
  rw [zpow_neg, zpow_natCast] at h
  exact h

/-! ## The interest rate of a request -/

/-- The constant `0.1` as a `float64`. -/
theorem tenth_bounds :
    Float64.round (1 / 10) = .finite (roundToGrid (1 / 10)) ∧
      51 / 512 ≤ roundToGrid (1 / 10) ∧ roundToGrid (1 / 10) ≤ 52 / 512 := by
  refine ⟨round_of_abs_le_small (by rw [abs_of_pos] <;> norm_num), ?_, ?_⟩
  · have g := roundToGrid_dyadic 51 9 (by norm_num) (by norm_num)
    have := roundToGrid_mono (show ((51 : Int) : ℚ) / 2 ^ 9 ≤ 1 / 10 by norm_num)
    rw [g] at this
    norm_num at this ⊢
    exact this
  · have g := roundToGrid_dyadic 52 9 (by norm_num) (by norm_num)
    have := roundToGrid_mono (show (1 / 10 : ℚ) ≤ ((52 : Int) : ℚ) / 2 ^ 9 by norm_num)
    rw [g] at this
    norm_num at this ⊢
    exact this

/-- Rounding keeps a number below a grid point below it. -/
theorem roundToGrid_le_dyadic {x : ℚ} (m : Int) (k : Nat) (hm : |m| ≤ 2 ^ 53) (hk : k ≤ 1074)
    (h : x ≤ (m : ℚ) / 2 ^ k) : roundToGrid x ≤ (m : ℚ) / 2 ^ k := by
  have := roundToGrid_mono h
  rwa [roundToGrid_dyadic m k hm hk] at this

/-- Rounding keeps a number above a grid point above it. -/
theorem dyadic_le_roundToGrid {x : ℚ} (m : Int) (k : Nat) (hm : |m| ≤ 2 ^ 53) (hk : k ≤ 1074)
    (h : (m : ℚ) / 2 ^ k ≤ x) : (m : ℚ) / 2 ^ k ≤ roundToGrid x := by
  have := roundToGrid_mono h
  rwa [roundToGrid_dyadic m k hm hk] at this

/-- The value of `randomFloat(0.1, 200)` for a draw `u` of `[0, 1)`: it is
finite, at least the constant `0.1` and at most `200 + 1/512`. -/
theorem rate_value (fused : Bool) (u : ℚ) (hu0 : 0 ≤ u) (hu1 : u < 1) :
    ∃ r, randomFloat fused (.finite u) (Float64.round (1 / 10)) (.finite 200) = .finite r ∧
      r = roundToGrid (if fused then u * roundToGrid (200 + -roundToGrid (1 / 10))
              + roundToGrid (1 / 10)
            else roundToGrid (1 / 10)
              + roundToGrid (u * roundToGrid (200 + -roundToGrid (1 / 10)))) ∧
      roundToGrid (1 / 10) ≤ r ∧ r ≤ 102401 / 512 := by
  obtain ⟨hc, hcA, hcB⟩ := tenth_bounds
  set c := roundToGrid (1 / 10) with hcdef
  have hd : (Float64.finite 200).sub (.finite c) = .finite (roundToGrid (200 + -c)) := by
    show Float64.round (200 + -c) = _
    exact round_of_abs_le_small (by rw [abs_of_pos] <;> norm_num <;> linarith)
  set d := roundToGrid (200 + -c) with hddef
  have hd0 : 0 ≤ d := roundToGrid_nonneg (by linarith)
  have hd1 : d ≤ ((102349 : Int) : ℚ) / 2 ^ 9 :=
    roundToGrid_le_dyadic 102349 9 (by norm_num) (by norm_num) (by norm_num; linarith)
  norm_num at hd1
  have hud0 : 0 ≤ u * d := mul_nonneg hu0 hd0
  have hud1 : u * d ≤ d := by nlinarith
  have hcc : roundToGrid c = c := roundToGrid_idem _
  unfold randomFloat
  rw [hc, hd]
  cases fused with
  | true =>
    rw [if_pos rfl]
    show ∃ r, Float64.round (u * d + c) = _ ∧ _
    rw [round_of_abs_le_small (by rw [abs_of_nonneg] <;> norm_num <;> linarith)]
    refine ⟨_, rfl, by simp, ?_, ?_⟩
    · have := roundToGrid_mono (show c ≤ u * d + c by linarith)
      rwa [hcc] at this
    · have := roundToGrid_le_dyadic (x := u * d + c) 102401 9 (by norm_num) (by norm_num)
        (by norm_num; linarith)
      norm_num at this
      exact this
  | false =>
    rw [if_neg (by simp)]
    show ∃ r, Float64.add (.finite c) (Float64.round (u * d)) = _ ∧ _
    rw [round_of_abs_le_small (by rw [abs_of_nonneg] <;> norm_num <;> linarith)]
    have hp0 : 0 ≤ roundToGrid (u * d) := roundToGrid_nonneg hud0
    have hp1 : roundToGrid (u * d) ≤ ((102349 : Int) : ℚ) / 2 ^ 9 :=
      roundToGrid_le_dyadic 102349 9 (by norm_num) (by norm_num) (by norm_num; linarith)
    norm_num at hp1
    show ∃ r, Float64.round (c + roundToGrid (u * d)) = _ ∧ _
    rw [round_of_abs_le_small (by rw [abs_of_nonneg] <;> norm_num <;> linarith)]
    refine ⟨_, rfl, by simp, ?_, ?_⟩
    · have := roundToGrid_mono (show c ≤ c + roundToGrid (u * d) by linarith)
      rwa [hcc] at this
    · have := roundToGrid_le_dyadic (x := c + roundToGrid (u * d)) 102401 9 (by norm_num)
        (by norm_num) (by norm_num; linarith)
      norm_num at this
      exact this

/-- The text of a finite non-negative value under `%.2f`. -/
theorem formatFixed2_nonneg {r : ℚ} (h : 0 ≤ r) :
    formatFixed2 (.finite r) = decimal2 (roundHalfEven (r * 100)).toNat := by
  show (if r < 0 then "-" else "") ++ decimal2 (roundHalfEven (|r| * 100)).toNat = _
  rw [if_neg (not_lt.mpr h), abs_of_nonneg h]
  exact String.empty_append _

/-- The text of a number below ten is one decimal digit. -/
theorem toString_digit (d : Nat) (h : d < 10) :
    ∃ c : Char, c.isDigit = true ∧ toString d = String.singleton c := by
  interval_cases d <;> exact ⟨_, by decide, rfl⟩

/-- The text of a number of hundredths ends in a point and exactly two
digits. -/
theorem decimal2_shape (h : Nat) :
    ∃ a b : Char, a.isDigit = true ∧ b.isDigit = true ∧
      decimal2 h = toString (h / 100) ++ "." ++ String.mk [a, b] := by
  obtain ⟨a, ha, ea⟩ := toString_digit (h / 10 % 10) (Nat.mod_lt _ (by norm_num))
  obtain ⟨b, hb, eb⟩ := toString_digit (h % 10) (Nat.mod_lt _ (by norm_num))
  refine ⟨a, b, ha, hb, ?_⟩
  unfold decimal2
  rw [ea, eb, String.append_assoc]
  rfl

/-- The tie `19999.5` rounds to the even neighbour `20000`. -/
theorem roundHalfEven_tie_20000 : roundHalfEven (39999 / 2) = 20000 := by
  have hf : ⌊(39999 / 2 : ℚ)⌋ = 19999 := by
    rw [Int.floor_eq_iff]
    constructor <;> norm_num
  unfold roundHalfEven
  dsimp only
  rw [hf]
  norm_num

set_option maxRecDepth 100000 in
/-- No number below `200` reads `200`. -/
theorem toString_ne_200 : ∀ q : Nat, q < 200 → (toString q).data ≠ ['2', '0', '0'] := by
  decide

/-- The only text of a number of hundredths up to `200.00` that reads `200.00`
is the one of `20000`. -/
theorem decimal2_eq_200 (h : Nat) (hh : h ≤ 20000) (e : decimal2 h = "200.00") : h = 20000 := by
  by_contra hne
  have hq : h / 100 < 200 := by omega
  obtain ⟨a, b, -, -, hshape⟩ := decimal2_shape h
  rw [hshape] at e
  have e2 : (toString (h / 100)).data ++ ['.', a, b] = ['2', '0', '0'] ++ ['.', '0', '0'] := by
    have := congrArg String.data e
    simpa [String.data_append] using this
  have e3 := List.append_inj_left' e2 rfl
  exact toString_ne_200 _ hq e3

/-- The two fractional digits of the text of a number of hundredths are its
tens and its units. -/
theorem decimal2_digits (h : Nat) :
    (Nat.digitChar (h / 10 % 10)).isDigit = true ∧ (Nat.digitChar (h % 10)).isDigit = true ∧
      decimal2 h = toString (h / 100) ++ "." ++
        String.mk [Nat.digitChar (h / 10 % 10), Nat.digitChar (h % 10)] := by
  have key : ∀ d : Nat, d < 10 →
      (Nat.digitChar d).isDigit = true ∧ toString d = String.singleton (Nat.digitChar d) := by
    intro d hd
    interval_cases d <;> exact ⟨rfl, rfl⟩
  obtain ⟨ha, ea⟩ := key (h / 10 % 10) (Nat.mod_lt _ (by norm_num))
  obtain ⟨hb, eb⟩ := key (h % 10) (Nat.mod_lt _ (by norm_num))
  refine ⟨ha, hb, ?_⟩
  unfold decimal2
  rw [ea, eb, String.append_assoc]
  rfl

/-- C7 (amended). For every draw `u` of `[0, 1)`, with `r` the value of
`randomFloat(0.1, 200)`: the `interestRate` parameter of a request is the text
of the number `h` of hundredths nearest to `r` (`h` is `100 * r` rounded to the
nearest integer, ties to even, so `h / 100` is within `0.005` of `r`); `h` lies
between `0.10` and `200.00`, both included; the text is the integer part of
`h / 100`, a point and exactly two digits, the tens and the units of `h`; and
it is `200.00` exactly when `r` is `199.995` or more. -/
theorem interestRate_range (fused : Bool) (u : ℚ) (hu0 : 0 ≤ u) (hu1 : u < 1) :
    ∃ (r : ℚ) (h : Nat) (a b : Char),
      randomFloat fused (.finite u) (Float64.round (1 / 10)) (.finite 200) = .finite r ∧
      (h : Int) = roundHalfEven (r * 100) ∧
      |(h : ℚ) / 100 - r| ≤ 1 / 200 ∧
      10 ≤ h ∧ h ≤ 20000 ∧
      a = Nat.digitChar (h / 10 % 10) ∧ b = Nat.digitChar (h % 10) ∧
      a.isDigit = true ∧ b.isDigit = true ∧
      interestRate fused (.finite u) = toString (h / 100) ++ "." ++ String.mk [a, b] ∧
      (interestRate fused (.finite u) = "200.00" ↔ 199995 / 1000 ≤ r) := by
  obtain ⟨r, hr, -, hlo, hhi⟩ := rate_value fused u hu0 hu1
  obtain ⟨-, hcA, -⟩ := tenth_bounds
  have hr0 : 0 ≤ r := by linarith
  have hb := roundHalfEven_sub_le (r * 100)
  have h1 : (9 : ℚ) < (roundHalfEven (r * 100) : ℚ) := by linarith
  have h2 : (roundHalfEven (r * 100) : ℚ) < 20001 := by linarith
  have h3 : (9 : Int) < roundHalfEven (r * 100) := by exact_mod_cast h1
  have h4 : roundHalfEven (r * 100) < (20001 : Int) := by exact_mod_cast h2
  obtain ⟨ha, hb', hshape⟩ := decimal2_digits (roundHalfEven (r * 100)).toNat
  have hcast : (((roundHalfEven (r * 100)).toNat : Nat) : Int) = roundHalfEven (r * 100) :=
    Int.toNat_of_nonneg (by omega)
  have hcastq : (((roundHalfEven (r * 100)).toNat : Nat) : ℚ) = (roundHalfEven (r * 100) : ℚ) := by
    exact_mod_cast hcast
  have htext : interestRate fused (.finite u) = decimal2 (roundHalfEven (r * 100)).toNat := by
    unfold interestRate
    rw [hr, formatFixed2_nonneg hr0]
  refine ⟨r, (roundHalfEven (r * 100)).toNat, _, _, hr, hcast, ?_, by omega, by omega, rfl, rfl,
    ha, hb', htext.trans hshape, ?_⟩
  · rw [hcastq, abs_le]
    constructor <;> linarith [hb.1, hb.2]
  · rw [htext]
    constructor
    · intro e
      have h5 := decimal2_eq_200 _ (by omega) e
      have h6 : roundHalfEven (r * 100) = 20000 := by omega
      have h7 : (roundHalfEven (r * 100) : ℚ) = 20000 := by exact_mod_cast h6
      linarith [hb.1]
    · intro hge
      have h5 : roundHalfEven (39999 / 2) ≤ roundHalfEven (r * 100) :=
        roundHalfEven_mono (by linarith)
      rw [roundHalfEven_tie_20000] at h5
      have h6 : (roundHalfEven (r * 100)).toNat = 20000 := by omega
      rw [h6]
      decide

/-- C7 (witness). The draw `u = 0.5`. -/
theorem interestRate_range_witness :
    (0 : ℚ) ≤ 1 / 2 ∧ (1 / 2 : ℚ) < 1 ∧
      ∃ (r : ℚ) (h : Nat) (a b : Char),
        randomFloat false (.finite (1 / 2)) (Float64.round (1 / 10)) (.finite 200) = .finite r ∧
        (h : Int) = roundHalfEven (r * 100) ∧
        |(h : ℚ) / 100 - r| ≤ 1 / 200 ∧
        10 ≤ h ∧ h ≤ 20000 ∧
        a = Nat.digitChar (h / 10 % 10) ∧ b = Nat.digitChar (h % 10) ∧
        a.isDigit = true ∧ b.isDigit = true ∧
        interestRate false (.finite (1 / 2)) = toString (h / 100) ++ "." ++ String.mk [a, b] ∧
        (interestRate false (.finite (1 / 2)) = "200.00" ↔ 199995 / 1000 ≤ r) :=
  ⟨by norm_num, by norm_num, interestRate_range false (1 / 2) (by norm_num) (by norm_num)⟩

/-- For the draw `1 - 2^-20` the value of `randomFloat(0.1, 200)` is at least
`199.999`. -/
theorem rate_value_high (fused : Bool) :
    (199999 : ℚ) / 1000 ≤
      roundToGrid (if fused then (1 - 1 / 2 ^ 20) * roundToGrid (200 + -roundToGrid (1 / 10))
              + roundToGrid (1 / 10)
            else roundToGrid (1 / 10)
              + roundToGrid ((1 - 1 / 2 ^ 20) * roundToGrid (200 + -roundToGrid (1 / 10)))) := by
  have hcA : (1638 : ℚ) / 16384 ≤ roundToGrid (1 / 10) := by
    have := dyadic_le_roundToGrid (x := 1 / 10) 1638 14 (by norm_num) (by norm_num)
      (by norm_num)
    norm_num at this ⊢
    exact this
  have hcB : roundToGrid (1 / 10) ≤ (1639 : ℚ) / 16384 := by
    have := roundToGrid_le_dyadic (x := 1 / 10) 1639 14 (by norm_num) (by norm_num)
      (by norm_num)
    norm_num at this ⊢
    exact this
  set c := roundToGrid (1 / 10)
  have hd : (3275161 : ℚ) / 16384 ≤ roundToGrid (200 + -c) := by
    have := dyadic_le_roundToGrid (x := 200 + -c) 3275161 14 (by norm_num) (by norm_num)
      (by norm_num; linarith)
    norm_num at this ⊢
    exact this
  set d := roundToGrid (200 + -c)
  have hud : (3434251945575 : ℚ) / 2 ^ 34 ≤ (1 - 1 / 2 ^ 20) * d := by
    have : (3434251945575 : ℚ) / 2 ^ 34 = (1 - 1 / 2 ^ 20) * (3275161 / 16384) := by norm_num
    rw [this]
    exact mul_le_mul_of_nonneg_left hd (by norm_num)
  have hG : (199999 : ℚ) / 1000 ≤ ((3435969513063 : Int) : ℚ) / 2 ^ 34 := by norm_num
  refine le_trans hG ?_
  cases fused with
  | true =>
    rw [if_pos rfl]
    exact dyadic_le_roundToGrid 3435969513063 34 (by norm_num) (by norm_num)
      (by norm_num at hud ⊢; linarith)
  | false =>
    rw [if_neg (by simp)]
    have hp : (3434251945575 : ℚ) / 2 ^ 34 ≤ roundToGrid ((1 - 1 / 2 ^ 20) * d) := by
      have := dyadic_le_roundToGrid (x := (1 - 1 / 2 ^ 20) * d) 3434251945575 34
        (by norm_num) (by norm_num) (by norm_num at hud ⊢; linarith)
      norm_num at this ⊢
      exact this
    exact dyadic_le_roundToGrid 3435969513063 34 (by norm_num) (by norm_num)
      (by norm_num at hp ⊢; linarith)

/-- C7 (counterexample). The draw `u = 1 - 2^-20 = 0.99999904...` is a
`float64` of `[0, 1)`; for it `randomFloat(0.1, 200)` is above `199.999`, and
the `interestRate` parameter of the request is `200.00`, with the separate
rounding of the product as with the fused multiply-add. -/
theorem interestRate_200 :
    (0 : ℚ) ≤ 1 - 1 / 2 ^ 20 ∧ (1 - 1 / 2 ^ 20 : ℚ) < 1 ∧
      Float64.Representable (1 - 1 / 2 ^ 20) ∧
      interestRate false (.finite (1 - 1 / 2 ^ 20)) = "200.00" ∧
      interestRate true (.finite (1 - 1 / 2 ^ 20)) = "200.00" := by
  have key : ∀ fused, interestRate fused (.finite (1 - 1 / 2 ^ 20)) = "200.00" := by
    intro fused
    obtain ⟨r, hr, hform, hlo, hhi⟩ :=
      rate_value fused (1 - 1 / 2 ^ 20) (by norm_num) (by norm_num)
    have hhigh := rate_value_high fused
    rw [← hform] at hhigh
    have hr0 : 0 ≤ r := by linarith
    have hb := roundHalfEven_sub_le (r * 100)
    have h1 : (19999 : ℚ) < (roundHalfEven (r * 100) : ℚ) := by linarith
    have h2 : (roundHalfEven (r * 100) : ℚ) < 20001 := by linarith
    have h4 : (19999 : Int) < roundHalfEven (r * 100) := by exact_mod_cast h1
    have h5 : roundHalfEven (r * 100) < (20001 : Int) := by exact_mod_cast h2
    have h3 : roundHalfEven (r * 100) = 20000 := by omega
    unfold interestRate
    rw [hr, formatFixed2_nonneg hr0, h3]
    decide
  refine ⟨by norm_num, by norm_num, ?_, key false, key true⟩
  unfold Float64.Representable
  rw [round_of_abs_le_small (by rw [abs_of_pos] <;> norm_num)]
  have := roundToGrid_dyadic (2 ^ 20 - 1) 20 (by norm_num) (by norm_num)
  have e : (((2 ^ 20 - 1 : Int) : ℚ)) / 2 ^ 20 = 1 - 1 / 2 ^ 20 := by norm_num
  rw [e] at this
  rw [this]

/-! ## `randomFloat` on arbitrary bounds -/

/-- A finite `float64` is on the grid and within the finite range. -/
theorem Float64.Representable.onGrid {q : ℚ} (h : Float64.Representable q) :
    roundToGrid q = q ∧ |q| ≤ maxFloat64 := by
  unfold Float64.Representable Float64.round at h
  dsimp only at h
  split_ifs at h with h1 h2
  have e : roundToGrid q = q := by injection h
  rw [e] at h1 h2
  exact ⟨e, abs_le.mpr ⟨by linarith, by linarith⟩⟩

/-- Every grid point is a multiple of the smallest subnormal `2 ^ (-1074)`. -/
theorem grid_multiple (x : ℚ) : ∃ k : Int, roundToGrid x = (k : ℚ) * 2 ^ (-1074 : Int) := by
  obtain ⟨j, hj⟩ : ∃ j : Nat, ulpExp x = -1074 + j :=
    ⟨(ulpExp x + 1074).toNat, by have := ulpExp_ge x; omega⟩
  refine ⟨roundHalfEven (x / 2 ^ ulpExp x) * 2 ^ j, ?_⟩
  have e : (2 : ℚ) ^ ulpExp x = 2 ^ j * 2 ^ (-1074 : Int) := by
    rw [hj, zpow_add₀ (by norm_num : (2 : ℚ) ≠ 0), zpow_natCast, mul_comm]
  show (roundHalfEven (x / 2 ^ ulpExp x) : ℚ) * 2 ^ ulpExp x = _
  rw [e]
  push_cast
  generalize (2 : ℚ) ^ (-1074 : Int) = w
  ring

theorem ulpExp_cases (x : ℚ) :
    ulpExp x = Int.log 2 |x| - 52 ∨ (ulpExp x = -1074 ∧ Int.log 2 |x| ≤ -1022) := by
  unfold ulpExp
  rcases max_cases (Int.log 2 |x| - 52) (-1074) with ⟨h, _⟩ | ⟨h, h'⟩
  · exact Or.inl h
  · exact Or.inr ⟨h, by omega⟩

/-- A non-negative multiple of `2 ^ (-1074)` in the subnormal range of `ulpExp`
is on the grid. -/
theorem subnormal_exact {D : ℚ} (k : Int) (hk : D = (k : ℚ) * 2 ^ (-1074 : Int)) (hD : 0 < D)
    (hlog : Int.log 2 |D| ≤ -1022) : roundToGrid D = D := by
  have h1 := lt_zpow_log_succ |D|
  have h2 : (2 : ℚ) ^ (Int.log 2 |D| + 1) ≤ 2 ^ (-1021 : Int) := two_zpow_le (by omega)
  have h3 : D < 2 ^ (-1021 : Int) :=
    lt_of_le_of_lt (le_abs_self D) (lt_of_lt_of_le h1 h2)
  have h4 : (2 : ℚ) ^ (-1021 : Int) = 2 ^ 53 * 2 ^ (-1074 : Int) := by
    rw [show (-1021 : Int) = (53 : Nat) + -1074 by norm_num,
      zpow_add₀ (by norm_num : (2 : ℚ) ≠ 0), zpow_natCast]
  have hp := two_zpow_pos (-1074)
  rw [hk, h4] at h3
  have h5 : (k : ℚ) < 2 ^ 53 := lt_of_mul_lt_mul_right h3 (le_of_lt hp)
  have h6 : (0 : ℚ) < k := by
    rw [hk] at hD
    exact pos_of_mul_pos_left hD (le_of_lt hp) |> fun h => h
  have h5' : k < 2 ^ 53 := by exact_mod_cast h5
  have h6' : 0 < k := by exact_mod_cast h6
  rw [hk]
  exact roundToGrid_exact k (-1074) (by rw [abs_of_pos h6']; omega) (by norm_num)

theorem le_log_of_zpow_le {a : ℚ} (ha : 0 < a) {k : Int} (h : (2 : ℚ) ^ k ≤ a) :
    k ≤ Int.log 2 a :=
  (Int.zpow_le_iff_le_log (b := 2) (by norm_num) ha (x := k)).mp (by simpa using h)

/-- In the normal range a unit in the last place is at most `2 ^ (-52)` times
the number. -/
theorem ulp_le_of_normal {x : ℚ} (hx : 0 < x) (h : ulpExp x = Int.log 2 |x| - 52) :
    (2 : ℚ) ^ ulpExp x ≤ x / 2 ^ 52 := by
  have h1 := zpow_log_le (abs_pos.mpr (ne_of_gt hx))
  rw [abs_of_pos hx] at h1 h
  rw [h, show Int.log 2 x - 52 = Int.log 2 x + -((52 : Nat) : Int) by push_cast; ring,
    zpow_add₀ (by norm_num : (2 : ℚ) ≠ 0), zpow_neg, zpow_natCast, ← div_eq_mul_inv]
  exact div_le_div_of_nonneg_right h1 (by norm_num)

/-- The largest `float64` below one is `1 - 2 ^ (-53)`. -/
theorem below_one {u : ℚ} (hg : roundToGrid u = u) (hu1 : u < 1) : u ≤ 1 - 1 / 2 ^ 53 := by
  rcases lt_or_le u (1 / 2) with h | h
  · have : (1 / 2 : ℚ) ≤ 1 - 1 / 2 ^ 53 := by norm_num
    linarith
  · have hu0 : 0 < u := by linarith
    have hl1 : -1 ≤ Int.log 2 |u| :=
      le_log_of_zpow_le (abs_pos.mpr (ne_of_gt hu0)) (by rw [abs_of_pos hu0]; norm_num; linarith)
    have hl2 : Int.log 2 |u| < 0 :=
      log_lt_of_lt_zpow (abs_pos.mpr (ne_of_gt hu0)) (by rw [abs_of_pos hu0]; simpa using hu1)
    have he : ulpExp u = -(53 : Nat) := by
      unfold ulpExp
      rw [max_eq_left (by omega)]
      omega
    have hgrid : roundToGrid u = (roundHalfEven (u / 2 ^ ulpExp u) : ℚ) * 2 ^ ulpExp u := rfl
    rw [hg] at hgrid
    generalize roundHalfEven (u / 2 ^ ulpExp u) = M at hgrid
    rw [he, zpow_neg, zpow_natCast] at hgrid
    have hM : (M : ℚ) < 2 ^ 53 := by
      rw [hgrid] at hu1
      have : (0 : ℚ) < 2 ^ 53 := by norm_num
      rw [← div_eq_mul_inv, div_lt_one this] at hu1
      exact hu1
    have hMlt : M < 2 ^ 53 := by exact_mod_cast hM
    have hMle : (M : ℚ) ≤ 2 ^ 53 - 1 := by
      have : M ≤ 2 ^ 53 - 1 := by omega
      exact_mod_cast this
    rw [hgrid]
    have : (0 : ℚ) < 2 ^ 53 := by norm_num
    rw [show (1 : ℚ) - 1 / 2 ^ 53 = (2 ^ 53 - 1) * (2 ^ 53)⁻¹ by field_simp]
    exact mul_le_mul_of_nonneg_right hMle (by positivity)

/-- The exact product of a draw below one and the rounded difference does not
exceed the exact difference. -/
theorem product_le (D u : ℚ) (k : Int) (hk : D = (k : ℚ) * 2 ^ (-1074 : Int)) (hD : 0 ≤ D)
    (hu0 : 0 ≤ u) (hu1 : u ≤ 1 - 1 / 2 ^ 53) : u * roundToGrid D ≤ D := by
  have hd0 : 0 ≤ roundToGrid D := roundToGrid_nonneg hD
  have hu1' : u ≤ 1 := by
    have : (1 : ℚ) - 1 / 2 ^ 53 ≤ 1 := by norm_num
    linarith
  rcases le_or_lt (roundToGrid D) D with h | h
  · nlinarith
  · have hDpos : 0 < D := by
      rcases eq_or_lt_of_le hD with h0 | h0
      · rw [← h0, roundToGrid_zero] at h; exact absurd h (lt_irrefl _)
      · exact h0
    have herr := (abs_le.mp (roundToGrid_error D)).2
    rcases ulpExp_cases D with hn | ⟨-, hs⟩
    · have h1 := ulp_le_of_normal hDpos hn
      have h2 : u * roundToGrid D ≤ (1 - 1 / 2 ^ 53) * roundToGrid D :=
        mul_le_mul_of_nonneg_right hu1 hd0
      have h3 : roundToGrid D - D ≤ D / 2 ^ 53 := by
        have : D / 2 ^ 52 / 2 = D / 2 ^ 53 := by ring
        linarith
      have h4 : D / 2 ^ 53 < roundToGrid D / 2 ^ 53 :=
        div_lt_div_of_pos_right h (by norm_num)
      have h5 : (1 - 1 / 2 ^ 53) * roundToGrid D = roundToGrid D - roundToGrid D / 2 ^ 53 := by
        ring
      linarith
    · have := subnormal_exact k hk hDpos hs
      rw [this] at h
      exact absurd h (lt_irrefl _)

/-- The rounded product of a draw below one and the rounded difference does not
exceed the exact difference. -/
theorem rounded_product_le (D u : ℚ) (k : Int) (hk : D = (k : ℚ) * 2 ^ (-1074 : Int))
    (hD : 0 ≤ D) (hu0 : 0 ≤ u) (hu1 : u ≤ 1 - 1 / 2 ^ 53) :
    roundToGrid (u * roundToGrid D) ≤ D := by
  have hd0 : 0 ≤ roundToGrid D := roundToGrid_nonneg hD
  have hu1' : u ≤ 1 := by
    have : (1 : ℚ) - 1 / 2 ^ 53 ≤ 1 := by norm_num
    linarith
  by_contra hcon
  rw [not_le] at hcon
  set d := roundToGrid D with hd
  set x := u * d with hx
  have hx0 : 0 ≤ x := mul_nonneg hu0 hd0
  have hxd : x ≤ d := by nlinarith
  have h1 : roundToGrid x ≤ d := by
    have := roundToGrid_mono hxd
    rwa [hd, roundToGrid_idem, ← hd] at this
  have h2 : d ≤ roundToGrid x := by
    have := roundToGrid_mono (le_of_lt hcon)
    rwa [roundToGrid_idem, ← hd] at this
  have hpd : roundToGrid x = d := le_antisymm h1 h2
  have hDd : D < d := by rw [← hpd]; exact hcon
  have hdpos : 0 < d := lt_of_le_of_lt hD hDd
  have hDpos : 0 < D := by
    rcases eq_or_lt_of_le hD with h0 | h0
    · rw [hd, ← h0, roundToGrid_zero] at hdpos; exact absurd hdpos (lt_irrefl _)
    · exact h0
  have hxpos : 0 < x := by
    rcases eq_or_lt_of_le hx0 with h0 | h0
    · rw [← h0, roundToGrid_zero] at hpd
      rw [← hpd] at hdpos; exact absurd hdpos (lt_irrefl _)
    · exact h0
  have hgap : d / 2 ^ 53 ≤ d - x := by
    have : x ≤ (1 - 1 / 2 ^ 53) * d := mul_le_mul_of_nonneg_right hu1 hd0
    have e : (1 - 1 / 2 ^ 53) * d = d - d / 2 ^ 53 := by ring
    linarith
  have herr := (abs_le.mp (roundToGrid_error x)).2
  rw [hpd] at herr
  rcases ulpExp_cases x with hn | ⟨-, hs⟩
  · have h3 := ulp_le_of_normal hxpos hn
    have h4 : d / 2 ^ 53 ≤ x / 2 ^ 53 := by
      have : x / 2 ^ 52 / 2 = x / 2 ^ 53 := by ring
      linarith
    have h5 : d ≤ x := by
      have := (div_le_div_iff_of_pos_right (by norm_num : (0 : ℚ) < 2 ^ 53)).mp h4
      exact this
    have h6 : 0 < d / 2 ^ 53 := div_pos hdpos (by norm_num)
    linarith
  · have h3 := lt_zpow_log_succ |x|
    have h4 : (2 : ℚ) ^ (Int.log 2 |x| + 1) ≤ 2 ^ (-1021 : Int) := two_zpow_le (by omega)
    have h5 : x ≤ ((1 : Int) : ℚ) * 2 ^ (-1021 : Int) := by
      rw [Int.cast_one, one_mul]
      exact le_of_lt (lt_of_le_of_lt (le_abs_self x) (lt_of_lt_of_le h3 h4))
    have h6 := roundToGrid_mono h5
    rw [roundToGrid_exact 1 (-1021) (by norm_num) (by norm_num), hpd, Int.cast_one,
      one_mul] at h6
    have h7 : Int.log 2 |D| < -1021 :=
      log_lt_of_lt_zpow (abs_pos.mpr (ne_of_gt hDpos))
        (by rw [abs_of_pos hDpos]; exact lt_of_lt_of_le hDd h6)
    have := subnormal_exact k hk hDpos (by omega)
    rw [← hd] at this
    rw [this] at hDd
    exact absurd hDd (lt_irrefl _)

/-- C6 (amended). For finite `float64` bounds `min <= max` whose difference
does not overflow and every draw `u` of `rand.Float64()` (a `float64` of
`[0, 1)`), `randomFloat(min, max)` is finite and lies in the closed interval
`[min, max]`. -/
theorem randomFloat_range (fused : Bool) (u min max : ℚ)
    (hmin : Float64.Representable min) (hmax : Float64.Representable max)
    (hu : Float64.Representable u) (hu0 : 0 ≤ u) (hu1 : u < 1) (h : min ≤ max)
    (hfin : (Float64.finite max).sub (.finite min) ≠ .inf false) :
    ∃ r, randomFloat fused (.finite u) (.finite min) (.finite max) = .finite r ∧
      min ≤ r ∧ r ≤ max := by
  obtain ⟨gmin, bmin⟩ := hmin.onGrid
  obtain ⟨gmax, bmax⟩ := hmax.onGrid
  obtain ⟨gu, -⟩ := hu.onGrid
  rw [abs_le] at bmin bmax
  have hD : 0 ≤ max + -min := by linarith
  have hd0 : 0 ≤ roundToGrid (max + -min) := roundToGrid_nonneg hD
  have hM : (0 : ℚ) ≤ maxFloat64 := by linarith [bmin.1, bmin.2]
  -- the difference is finite
  have hsub : (Float64.finite max).sub (.finite min) = Float64.round (max + -min) := rfl
  have hd1 : roundToGrid (max + -min) ≤ maxFloat64 := by
    by_contra hc
    apply hfin
    rw [hsub]
    unfold Float64.round
    dsimp only
    rw [if_pos (not_le.mp hc)]
  have hsub' : (Float64.finite max).sub (.finite min) = .finite (roundToGrid (max + -min)) := by
    rw [hsub]
    unfold Float64.round
    dsimp only
    rw [if_neg (not_lt.mpr hd1), if_neg (not_lt.mpr (by linarith))]
  -- the difference is a multiple of the smallest subnormal
  obtain ⟨k1, e1⟩ := grid_multiple max
  obtain ⟨k2, e2⟩ := grid_multiple min
  rw [gmax] at e1
  rw [gmin] at e2
  have hk : max + -min = ((k1 - k2 : Int) : ℚ) * 2 ^ (-1074 : Int) := by
    rw [e1, e2]; push_cast; ring
  have hu1' := below_one gu hu1
  have hP := product_le (max + -min) u (k1 - k2) hk hD hu0 hu1'
  have hR := rounded_product_le (max + -min) u (k1 - k2) hk hD hu0 hu1'
  have hud0 : 0 ≤ u * roundToGrid (max + -min) := mul_nonneg hu0 hd0
  unfold randomFloat
  rw [hsub']
  cases fused with
  | true =>
    rw [if_pos rfl]
    show ∃ r, Float64.round (u * roundToGrid (max + -min) + min) = _ ∧ _
    rw [round_of_abs_le (abs_le.mpr ⟨by linarith [bmin.1], by linarith [bmax.2]⟩)]
    refine ⟨_, rfl, ?_, ?_⟩
    · have := roundToGrid_mono (show min ≤ u * roundToGrid (max + -min) + min by linarith)
      rwa [gmin] at this
    · have := roundToGrid_mono (show u * roundToGrid (max + -min) + min ≤ max by linarith)
      rwa [gmax] at this
  | false =>
    rw [if_neg (by simp)]
    show ∃ r, Float64.add (.finite min) (Float64.round (u * roundToGrid (max + -min))) = _ ∧ _
    have hp0 : 0 ≤ roundToGrid (u * roundToGrid (max + -min)) := roundToGrid_nonneg hud0
    have hp1 : roundToGrid (u * roundToGrid (max + -min)) ≤ maxFloat64 := by
      have h1 : u * roundToGrid (max + -min) ≤ maxFloat64 := by nlinarith
      have := roundToGrid_mono h1
      rwa [maxFloat64_onGrid] at this
    have hmul : Float64.round (u * roundToGrid (max + -min))
        = .finite (roundToGrid (u * roundToGrid (max + -min))) := by
      unfold Float64.round
      dsimp only
      rw [if_neg (not_lt.mpr hp1), if_neg (not_lt.mpr (by linarith))]
    rw [hmul]
    show ∃ r, Float64.round (min + roundToGrid (u * roundToGrid (max + -min))) = _ ∧ _
    rw [round_of_abs_le (abs_le.mpr ⟨by linarith [bmin.1], by linarith [bmax.2]⟩)]
    refine ⟨_, rfl, ?_, ?_⟩
    · have := roundToGrid_mono
        (show min ≤ min + roundToGrid (u * roundToGrid (max + -min)) by linarith)
      rwa [gmin] at this
    · have := roundToGrid_mono
        (show min + roundToGrid (u * roundToGrid (max + -min)) ≤ max by linarith)
      rwa [gmax] at this

/-- A dyadic number with a short numerator, of moderate size, is a finite
`float64`. -/
theorem representable_dyadic (m : Int) (k : Nat) (hm : |m| ≤ 2 ^ 53) (hk : k ≤ 1074)
    (hb : |(m : ℚ) / 2 ^ k| ≤ 2 ^ 10) : Float64.Representable ((m : ℚ) / 2 ^ k) := by
  unfold Float64.Representable
  rw [round_of_abs_le_small hb, roundToGrid_dyadic m k hm hk]

/-- C6 (witness). The bounds `min = 0.5`, `max = 200` and the draw `u = 0.75`. -/
theorem randomFloat_range_witness :
    Float64.Representable (1 / 2) ∧ Float64.Representable 200 ∧
      Float64.Representable (3 / 4) ∧ (0 : ℚ) ≤ 3 / 4 ∧ (3 / 4 : ℚ) < 1 ∧ (1 / 2 : ℚ) ≤ 200 ∧
      (Float64.finite 200).sub (.finite (1 / 2)) ≠ .inf false ∧
      ∃ r, randomFloat false (.finite (3 / 4)) (.finite (1 / 2)) (.finite 200) = .finite r ∧
        1 / 2 ≤ r ∧ r ≤ 200 := by
  have r1 : Float64.Representable (1 / 2) := by
    have := representable_dyadic 1 1 (by norm_num) (by norm_num) (by rw [abs_of_pos] <;> norm_num)
    norm_num at this
    exact this
  have r2 : Float64.Representable 200 := by
    have := representable_dyadic 200 0 (by norm_num) (by norm_num)
      (by rw [abs_of_pos] <;> norm_num)
    norm_num at this
    exact this
  have r3 : Float64.Representable (3 / 4) := by
    have := representable_dyadic 3 2 (by norm_num) (by norm_num) (by rw [abs_of_pos] <;> norm_num)
    norm_num at this
    exact this
  have hfin : (Float64.finite 200).sub (.finite (1 / 2)) ≠ .inf false := by
    show Float64.round (200 + -(1 / 2)) ≠ _
    rw [round_of_abs_le_small (by rw [abs_of_pos] <;> norm_num)]
    simp
  exact ⟨r1, r2, r3, by norm_num, by norm_num, by norm_num, hfin,
    randomFloat_range false (3 / 4) (1 / 2) 200 r1 r2 r3 (by norm_num) (by norm_num)
      (by norm_num) hfin⟩

theorem roundHalfEven_eq_of_close {t : ℚ} {M : Int} (h1 : (M : ℚ) - 1 / 2 < t)
    (h2 : t < (M : ℚ) + 1 / 2) : roundHalfEven t = M := by
  have hb := roundHalfEven_sub_le t
  have h3 : ((M - 1 : Int) : ℚ) < (roundHalfEven t : ℚ) := by push_cast; linarith
  have h4 : (roundHalfEven t : ℚ) < ((M + 1 : Int) : ℚ) := by push_cast; linarith
  have h3' : M - 1 < roundHalfEven t := by exact_mod_cast h3
  have h4' : roundHalfEven t < M + 1 := by exact_mod_cast h4
  omega

/-- The unit in the last place of a number of `[1, 2)` is `2 ^ (-52)`. -/
theorem ulpExp_one_two {x : ℚ} (h1 : 1 ≤ x) (h2 : x < 2) : ulpExp x = -(52 : Nat) := by
  have hx : 0 < x := by linarith
  have hl1 : 0 ≤ Int.log 2 |x| :=
    le_log_of_zpow_le (abs_pos.mpr (ne_of_gt hx)) (by rw [abs_of_pos hx]; simpa using h1)
  have hl2 : Int.log 2 |x| < 1 :=
    log_lt_of_lt_zpow (abs_pos.mpr (ne_of_gt hx)) (by rw [abs_of_pos hx]; simpa using h2)
  unfold ulpExp
  rw [max_eq_left (by omega)]
  omega

/-- The number `1 + 3/4 * 2^-52` rounds up to the successor of one. -/
theorem round_above_one :
    Float64.round (1 + 3 / 2 ^ 54) = .finite (1 + 1 / 2 ^ 52) := by
  rw [round_of_abs_le_small (by rw [abs_of_pos] <;> norm_num)]
  congr 1
  unfold roundToGrid
  rw [ulpExp_one_two (by norm_num) (by norm_num), zpow_neg, zpow_natCast]
  rw [roundHalfEven_eq_of_close (M := 2 ^ 52 + 1) (by norm_num) (by norm_num)]
  norm_num

theorem maxFloat64_pos : 0 < maxFloat64 := by
  have := maxFloat64_large
  have h : (0 : ℚ) < 2 ^ 10 := by norm_num
  linarith

/-- The difference of the largest and the smallest finite `float64`
overflows. -/
theorem sub_overflow :
    (Float64.finite maxFloat64).sub (.finite (-maxFloat64)) = .inf false := by
  show Float64.round (maxFloat64 + - -maxFloat64) = _
  have e : maxFloat64 + - -maxFloat64 = (((2 ^ 53 - 1 : Int) : ℚ)) * 2 ^ (972 : Int) := by
    unfold maxFloat64
    push_cast
    norm_num
  have h := roundToGrid_exact (2 ^ 53 - 1) 972 (by norm_num) (by norm_num)
  rw [← e] at h
  unfold Float64.round
  dsimp only
  rw [if_pos]
  rw [h]
  have := maxFloat64_pos
  linarith

/-- With the bounds `-math.MaxFloat64` and `math.MaxFloat64` the result is
`+Inf`. -/
theorem randomFloat_overflow (fused : Bool) :
    randomFloat fused (.finite (1 / 2)) (.finite (-maxFloat64)) (.finite maxFloat64)
      = .inf false := by
  unfold randomFloat
  rw [sub_overflow]
  cases fused with
  | true =>
    rw [if_pos rfl]
    show Float64.add (Float64.mul (.finite (1 / 2)) (.inf false)) (.finite (-maxFloat64)) = _
    show Float64.add (if (1 / 2 : ℚ) = 0 then Float64.nan
      else .inf (false != decide ((1 / 2 : ℚ) < 0))) (.finite (-maxFloat64)) = _
    rw [if_neg (by norm_num)]
    have : decide ((1 / 2 : ℚ) < 0) = false := by
      rw [decide_eq_false_iff_not]; norm_num
    rw [this]
    rfl
  | false =>
    rw [if_neg (by simp)]
    show Float64.add (.finite (-maxFloat64)) (if (1 / 2 : ℚ) = 0 then Float64.nan
      else .inf (false != decide ((1 / 2 : ℚ) < 0))) = _
    rw [if_neg (by norm_num)]
    have : decide ((1 / 2 : ℚ) < 0) = false := by
      rw [decide_eq_false_iff_not]; norm_num
    rw [this]
    rfl

/-- C6 (counterexample). With `min = 1 < max = 1 + 2^-52` (the next
`float64`) and the draw `u = 0.75`, the product `u*(max-min)` is `0.75 * 2^-52`
and the sum rounds up to `max`: the result is not below `max`. With
`min = max = 1` the result is `1 = max` for the same draw. With
`min = -math.MaxFloat64` and `max = math.MaxFloat64` the difference overflows
and the result is `+Inf`. All three hold with the separate rounding of the
product and with the fused multiply-add. -/
theorem randomFloat_outside_half_open :
    Float64.Representable 1 ∧ Float64.Representable (1 + 1 / 2 ^ 52) ∧
      Float64.Representable (3 / 4) ∧ (0 : ℚ) ≤ 3 / 4 ∧ (3 / 4 : ℚ) < 1 ∧
      (1 : ℚ) < 1 + 1 / 2 ^ 52 ∧
      (∀ fused, randomFloat fused (.finite (3 / 4)) (.finite 1) (.finite (1 + 1 / 2 ^ 52))
        = .finite (1 + 1 / 2 ^ 52)) ∧
      (∀ fused, randomFloat fused (.finite (3 / 4)) (.finite 1) (.finite 1) = .finite 1) ∧
      Float64.Representable maxFloat64 ∧ Float64.Representable (-maxFloat64) ∧
      Float64.Representable (1 / 2) ∧ -maxFloat64 ≤ maxFloat64 ∧
      (∀ fused, randomFloat fused (.finite (1 / 2)) (.finite (-maxFloat64))
        (.finite maxFloat64) = .inf false) := by
  have r1 : Float64.Representable 1 := by
    have := representable_dyadic 1 0 (by norm_num) (by norm_num) (by rw [abs_of_pos] <;> norm_num)
    norm_num at this
    exact this
  have r2 : Float64.Representable (1 + 1 / 2 ^ 52) := by
    have := representable_dyadic (2 ^ 52 + 1) 52 (by norm_num) (by norm_num)
      (by rw [abs_of_pos] <;> norm_num)
    have e : (((2 ^ 52 + 1 : Int) : ℚ)) / 2 ^ 52 = 1 + 1 / 2 ^ 52 := by norm_num
    rwa [e] at this
  have r3 : Float64.Representable (3 / 4) := by
    have := representable_dyadic 3 2 (by norm_num) (by norm_num) (by rw [abs_of_pos] <;> norm_num)
    norm_num at this
    exact this
  have r4 : Float64.Representable (1 / 2 ^ 52) := by
    have := representable_dyadic 1 52 (by norm_num) (by norm_num) (by rw [abs_of_pos] <;> norm_num)
    norm_num at this ⊢
    exact this
  have r5 : Float64.Representable (3 / 2 ^ 54) := by
    have := representable_dyadic 3 54 (by norm_num) (by norm_num) (by rw [abs_of_pos] <;> norm_num)
    norm_num at this ⊢
    exact this
  have r0 : Float64.Representable 0 := by
    have := representable_dyadic 0 0 (by norm_num) (by norm_num) (by norm_num)
    norm_num at this
    exact this
  have r6 : Float64.Representable (1 / 2) := by
    have := representable_dyadic 1 1 (by norm_num) (by norm_num) (by rw [abs_of_pos] <;> norm_num)
    norm_num at this
    exact this
  have hpos := maxFloat64_pos
  have r7 : Float64.Representable maxFloat64 := by
    unfold Float64.Representable
    rw [round_of_abs_le (by rw [abs_of_pos hpos]), maxFloat64_onGrid]
  have r8 : Float64.Representable (-maxFloat64) := by
    unfold Float64.Representable
    rw [round_of_abs_le (by rw [abs_neg, abs_of_pos hpos]), roundToGrid_neg, maxFloat64_onGrid]
  have hsub : (Float64.finite (1 + 1 / 2 ^ 52)).sub (.finite 1) = .finite (1 / 2 ^ 52) := by
    show Float64.round (1 + 1 / 2 ^ 52 + -1) = _
    rw [show (1 : ℚ) + 1 / 2 ^ 52 + -1 = 1 / 2 ^ 52 by ring]
    exact r4
  have hsub0 : (Float64.finite 1).sub (.finite 1) = .finite 0 := by
    show Float64.round (1 + -1) = _
    rw [show (1 : ℚ) + -1 = 0 by ring]
    exact r0
  refine ⟨r1, r2, r3, by norm_num, by norm_num, by norm_num, ?_, ?_, r7, r8, r6,
    by linarith, randomFloat_overflow⟩
  · intro fused
    unfold randomFloat
    rw [hsub]
    cases fused with
    | true =>
      rw [if_pos rfl]
      show Float64.round (3 / 4 * (1 / 2 ^ 52) + 1) = _
      rw [show (3 / 4 : ℚ) * (1 / 2 ^ 52) + 1 = 1 + 3 / 2 ^ 54 by norm_num]
      exact round_above_one
    | false =>
      rw [if_neg (by simp)]
      show Float64.add (.finite 1) (Float64.round (3 / 4 * (1 / 2 ^ 52))) = _
      rw [show (3 / 4 : ℚ) * (1 / 2 ^ 52) = 3 / 2 ^ 54 by norm_num, r5]
      exact round_above_one
  · intro fused
    unfold randomFloat
    rw [hsub0]
    cases fused with
    | true =>
      rw [if_pos rfl]
      show Float64.round (3 / 4 * 0 + 1) = _
      rw [show (3 / 4 : ℚ) * 0 + 1 = 1 by norm_num]
      exact r1
    | false =>
      rw [if_neg (by simp)]
      show Float64.add (.finite 1) (Float64.round (3 / 4 * 0)) = _
      rw [show (3 / 4 : ℚ) * 0 = 0 by norm_num, r0]
      show Float64.round (1 + 0) = _
      rw [show (1 : ℚ) + 0 = 1 by norm_num]
      exact r1

/-! ## The characters of a request URL -/

theorem digitChar_isDigit (k : Nat) (h : k < 10) : (Nat.digitChar k).isDigit = true := by
  interval_cases k <;> rfl

theorem toDigitsCore_isDigit (fuel : Nat) :
    ∀ (n : Nat) (acc : List Char), (∀ c ∈ acc, c.isDigit = true) →
      ∀ c ∈ Nat.toDigitsCore 10 fuel n acc, c.isDigit = true := by
  induction fuel with
  | zero => intro n acc h; simpa [Nat.toDigitsCore] using h
  | succ fuel ih =>
    intro n acc h
    have hd : ∀ c ∈ Nat.digitChar (n % 10) :: acc, c.isDigit = true := by
      intro c hc
      rcases List.mem_cons.mp hc with rfl | hc
      · exact digitChar_isDigit _ (Nat.mod_lt _ (by norm_num))
      · exact h c hc
    unfold Nat.toDigitsCore
    dsimp only
    split_ifs
    · exact hd
    · exact ih _ _ hd

/-- The decimal text of a natural number is made of digits. -/
theorem toString_nat_isDigit (n : Nat) : ∀ c ∈ (toString n).data, c.isDigit = true :=
  toDigitsCore_isDigit _ _ _ (by simp)

theorem plain_of_isDigit {c : Char} (h : c.isDigit = true) :
    c ≠ Char.ofNat 35 ∧ c ≠ Char.ofNat 34 ∧ c ≠ Char.ofNat 92 ∧
      32 ≤ c.toNat ∧ c.toNat ≤ 126 := by
  refine ⟨?_, ?_, ?_, ?_⟩
  · rintro rfl; revert h; decide
  · rintro rfl; revert h; decide
  · rintro rfl; revert h; decide
  · simp only [Char.isDigit, Bool.and_eq_true, decide_eq_true_eq, ge_iff_le] at h
    obtain ⟨h1, h2⟩ := h
    rw [UInt32.le_def] at h1 h2
    have e : c.toNat = c.val.val.val := rfl
    rw [e]
    have h1' : (48 : Nat) ≤ c.val.val.val := h1
    have h2' : c.val.val.val ≤ (57 : Nat) := h2
    omega

theorem Plain.append {s t : String} (hs : Plain s) (ht : Plain t) : Plain (s ++ t) := by
  intro c hc
  rw [String.data_append, List.mem_append] at hc
  rcases hc with hc | hc
  · exact hs c hc
  · exact ht c hc

theorem plain_toString_nat (n : Nat) : Plain (toString n) :=
  fun c hc => plain_of_isDigit (toString_nat_isDigit n c hc)

/-- The text of a Go `int` under `%d` is printable ASCII without `#`, double
quote and backslash. -/
theorem plain_toString_int (z : Int) : Plain (toString z) := by
  cases z with
  | ofNat n => exact plain_toString_nat n
  | negSucc n =>
    exact Plain.append (s := "-") (by decide) (plain_toString_nat (n + 1))

theorem plain_decimal2 (h : Nat) : Plain (decimal2 h) := by
  unfold decimal2
  exact Plain.append (Plain.append (Plain.append (plain_toString_nat _) (by decide))
    (plain_toString_nat _)) (plain_toString_nat _)

/-- The text of a `float64` under `%.2f` is printable ASCII without `#`,
double quote and backslash. -/
theorem plain_formatFixed2 (x : Float64) : Plain (formatFixed2 x) := by
  cases x with
  | nan => decide
  | inf s => cases s <;> decide
  | finite q =>
    unfold formatFixed2
    dsimp only
    split_ifs
    · exact Plain.append (by decide) (plain_decimal2 _)
    · exact Plain.append (by decide) (plain_decimal2 _)

/-- Every URL that `sendRequest` builds is printable ASCII without `#`, double
quote and backslash: `url.Parse` finds no fragment in it and `%q` puts it
between quotes as it is. -/
theorem requestURL_plain (fused : Bool) (u : Float64) (a m y : GoInt) :
    Plain (requestURL a m (interestRate fused u) y) := by
  unfold requestURL interestRate
  exact Plain.append (Plain.append (Plain.append (Plain.append (Plain.append (Plain.append
    (Plain.append (by decide) (plain_toString_int _)) (by decide)) (plain_toString_int _))
    (by decide)) (plain_formatFixed2 _)) (by decide)) (plain_toString_int _)

/-! ## The log line of a request -/

theorem render_error (a b : Operand) :
    render "Error in request %d: %v".data [a, b]
      = "Error in request ".data ++ (a.text.data ++ (": ".data ++ b.text.data)) := by
  have h : render "Error in request %d: %v".data [a, b]
      = "Error in request ".data ++ (a.text.data ++ (": ".data ++ (b.text.data ++ []))) := rfl
  rw [h, List.append_nil]

theorem render_creating (a b : Operand) :
    render "Error creating request %d: %v".data [a, b]
      = "Error creating request ".data ++ (a.text.data ++ (": ".data ++ b.text.data)) := by
  have h : render "Error creating request %d: %v".data [a, b]
      = "Error creating request ".data
        ++ (a.text.data ++ (": ".data ++ (b.text.data ++ []))) := rfl
  rw [h, List.append_nil]

theorem render_details (a b c d e f : Operand) :
    render "Request %d - initAmount: %d, monthlyContribution: %d, interestRate: %s, numberOfYears: %d, Status: %s\n".data
        [a, b, c, d, e, f]
      = "Request ".data ++ (a.text.data ++ (" - initAmount: ".data ++ (b.text.data ++
          (", monthlyContribution: ".data ++ (c.text.data ++ (", interestRate: ".data ++
          (d.text.data ++ (", numberOfYears: ".data ++ (e.text.data ++
          (", Status: ".data ++ (f.text.data ++ "\n".data))))))))))) := by
  rfl

theorem Contains.refl (s : String) : Contains s s := List.infix_refl _

theorem Contains.trans {a b c : String} (h1 : Contains a b) (h2 : Contains b c) :
    Contains a c := List.IsInfix.trans h2 h1

theorem contains_append_left (a b : String) : Contains (a ++ b) a := by
  unfold Contains
  rw [String.data_append]
  exact (List.prefix_append _ _).isInfix

theorem contains_append_right (a b : String) : Contains (a ++ b) b := by
  unfold Contains
  rw [String.data_append]
  exact (List.suffix_append _ _).isInfix

/-- The request URL contains the four parameters, each after its name. -/
theorem requestURL_contains (a m : GoInt) (rate : String) (y : GoInt) :
    Contains (requestURL a m rate y) ("initAmount=" ++ toString a.val) ∧
      Contains (requestURL a m rate y) ("monthlyContribution=" ++ toString m.val) ∧
      Contains (requestURL a m rate y) ("interestRate=" ++ rate) ∧
      Contains (requestURL a m rate y) ("numberOfYears=" ++ toString y.val) := by
  unfold Contains requestURL
  simp only [String.data_append]
  refine ⟨?_, ?_, ?_, ?_⟩
  · exact ⟨"https://calc.test.trahan.dev/calculated?".data,
      "&monthlyContribution=".data ++ (toString m.val).data ++ "&interestRate=".data
        ++ rate.data ++ "&numberOfYears=".data ++ (toString y.val).data, by
        simp only [List.append_assoc]; rfl⟩
  · exact ⟨"https://calc.test.trahan.dev/calculated?initAmount=".data ++ (toString a.val).data
        ++ "&".data,
      "&interestRate=".data ++ rate.data ++ "&numberOfYears=".data ++ (toString y.val).data, by
        simp only [List.append_assoc]; rfl⟩
  · exact ⟨"https://calc.test.trahan.dev/calculated?initAmount=".data ++ (toString a.val).data
        ++ "&monthlyContribution=".data ++ (toString m.val).data ++ "&".data,
      "&numberOfYears=".data ++ (toString y.val).data, by
        simp only [List.append_assoc]; rfl⟩
  · exact ⟨"https://calc.test.trahan.dev/calculated?initAmount=".data ++ (toString a.val).data
        ++ "&monthlyContribution=".data ++ (toString m.val).data ++ "&interestRate=".data
        ++ rate.data ++ "&".data, [], by
        simp only [List.append_assoc, List.append_nil]; rfl⟩

theorem contains_of_data {line part : String} (before after : List Char)
    (h : line.data = before ++ (part.data ++ after)) : Contains line part := by
  unfold Contains
  rw [h]
  exact ⟨before, after, by simp only [List.append_assoc]⟩

/-- The two error lines contain the job id and the error. -/
theorem error_line_contains (id : GoInt) (err : GoError) :
    (Contains (LogCall.text ⟨"Error creating request %d: %v", [.int id, .err err]⟩)
        (toString id.val) ∧
      Contains (LogCall.text ⟨"Error creating request %d: %v", [.int id, .err err]⟩)
        err.text) ∧
    (Contains (LogCall.text ⟨"Error in request %d: %v", [.int id, .err err]⟩)
        (toString id.val) ∧
      Contains (LogCall.text ⟨"Error in request %d: %v", [.int id, .err err]⟩) err.text) := by
  refine ⟨⟨?_, ?_⟩, ?_, ?_⟩
  · exact contains_of_data "Error creating request ".data (": ".data ++ err.text.data)
      (render_creating _ _)
  · exact contains_of_data ("Error creating request ".data ++ ((toString id.val).data ++ ": ".data))
      [] (by rw [List.append_nil]; exact (render_creating _ _).trans (by
        simp only [List.append_assoc]; rfl))
  · exact contains_of_data "Error in request ".data (": ".data ++ err.text.data)
      (render_error _ _)
  · exact contains_of_data ("Error in request ".data ++ ((toString id.val).data ++ ": ".data))
      [] (by rw [List.append_nil]; exact (render_error _ _).trans (by
        simp only [List.append_assoc]; rfl))

/-- The line of a response contains the job id, the four parameters, each after
its name, and the status. -/
theorem details_line_contains (id a m : GoInt) (rate : String) (y : GoInt) (status : String) :
    let line : LogCall := ⟨"Request %d - initAmount: %d, monthlyContribution: %d, interestRate: %s, numberOfYears: %d, Status: %s\n",
      [.int id, .int a, .int m, .str rate, .int y, .str status]⟩
    Contains line.text ("Request " ++ toString id.val) ∧
      Contains line.text ("initAmount: " ++ toString a.val) ∧
      Contains line.text ("monthlyContribution: " ++ toString m.val) ∧
      Contains line.text ("interestRate: " ++ rate) ∧
      Contains line.text ("numberOfYears: " ++ toString y.val) ∧
      Contains line.text ("Status: " ++ status) := by
  intro line
  have h := render_details (.int id) (.int a) (.int m) (.str rate) (.int y) (.str status)
  have hl : line.text.data = _ := h
  refine ⟨?_, ?_, ?_, ?_, ?_, ?_⟩
  · exact contains_of_data [] _ (hl.trans (by
      simp only [String.data_append, List.append_assoc, List.nil_append]; rfl))
  · exact contains_of_data ("Request ".data ++ (toString id.val).data ++ " - ".data) _
      (hl.trans (by simp only [String.data_append, List.append_assoc]; rfl))
  · exact contains_of_data ("Request ".data ++ (toString id.val).data ++ " - initAmount: ".data
        ++ (toString a.val).data ++ ", ".data) _
      (hl.trans (by simp only [String.data_append, List.append_assoc]; rfl))
  · exact contains_of_data ("Request ".data ++ (toString id.val).data ++ " - initAmount: ".data
        ++ (toString a.val).data ++ ", monthlyContribution: ".data ++ (toString m.val).data
        ++ ", ".data) _
      (hl.trans (by simp only [String.data_append, List.append_assoc]; rfl))
  · exact contains_of_data ("Request ".data ++ (toString id.val).data ++ " - initAmount: ".data
        ++ (toString a.val).data ++ ", monthlyContribution: ".data ++ (toString m.val).data
        ++ ", interestRate: ".data ++ rate.data ++ ", ".data) _
      (hl.trans (by simp only [String.data_append, List.append_assoc]; rfl))
  · exact contains_of_data ("Request ".data ++ (toString id.val).data ++ " - initAmount: ".data
        ++ (toString a.val).data ++ ", monthlyContribution: ".data ++ (toString m.val).data
        ++ ", interestRate: ".data ++ rate.data ++ ", numberOfYears: ".data
        ++ (toString y.val).data ++ ", ".data) _
      (hl.trans (by simp only [String.data_append, List.append_assoc]; rfl))

theorem flatMap_plain (l : List Char)
    (h : ∀ c ∈ l, c ≠ Char.ofNat 35 ∧ c ≠ Char.ofNat 34 ∧ c ≠ Char.ofNat 92 ∧
      32 ≤ c.toNat ∧ c.toNat ≤ 126) :
    (l.flatMap fun c =>
      if c = Char.ofNat 34 ∨ c = Char.ofNat 92 then [Char.ofNat 92, c] else [c]) = l := by
  induction l with
  | nil => rfl
  | cons c l ih =>
    have hc := h c (List.mem_cons_self _ _)
    rw [List.flatMap_cons, ih (fun d hd => h d (List.mem_cons_of_mem _ hd)),
      if_neg (by rintro (e | e); exact hc.2.1 e; exact hc.2.2.1 e)]
    rfl

/-- Between its quotes `%q` leaves a text without double quote and backslash
as it is. -/
theorem quote_plain {s : String} (h : Plain s) : quote s = "\"" ++ s ++ "\"" := by
  unfold quote
  rw [flatMap_plain s.data h]

theorem cutFragment_plain {s : String} (h : Plain s) : cutFragment s = (s, "") := by
  have hall : ∀ c ∈ s.data, (decide (c ≠ Char.ofNat 35)) = true := fun c hc =>
    decide_eq_true (h c hc).1
  unfold cutFragment
  rw [List.takeWhile_eq_self_iff.mpr hall, List.dropWhile_eq_nil_iff.mpr hall]
  rfl

/-- A `*url.Error` ends with its cause. -/
theorem urlError_contains_cause (op url : String) (cause : GoError) :
    Contains (urlError op url cause).text cause.text :=
  contains_append_right _ _

/-- A `*url.Error` quotes its URL. -/
theorem urlError_contains_url (op : String) {url : String} (h : Plain url) (cause : GoError) :
    Contains (urlError op url cause).text url := by
  unfold urlError
  rw [quote_plain h]
  exact Contains.trans (contains_append_left _ _)
    (Contains.trans (contains_append_left _ _)
      (Contains.trans (contains_append_right _ _)
        (Contains.trans (contains_append_left _ _) (contains_append_right _ _))))

theorem Parse_ok {world : World} {url u : String} (h : world.Parse url = .ok u) : u = url := by
  unfold World.Parse at h
  split at h
  · cases h
  · split_ifs at h
    · injection h with h; exact h.symm
    · split at h
      · cases h
      · injection h with h; exact h.symm

theorem Parse_error {world : World} {url : String} (hp : Plain url) {e : GoError}
    (h : world.Parse url = .error e) : ∃ cause, e = urlError "parse" url cause := by
  unfold World.Parse at h
  rw [cutFragment_plain hp] at h
  dsimp only at h
  split at h
  · rename_i cause _
    exact ⟨cause, by injection h with h; exact h.symm⟩
  · rw [if_pos rfl] at h
    cases h

theorem NewRequest_ok {world : World} {method url : String} {req : Request}
    (h : world.NewRequest method url = .ok req) : req = ⟨method, url⟩ := by
  unfold World.NewRequest at h
  split at h
  · cases h
  · rename_i u hu
    rw [Parse_ok hu] at h
    injection h with h; exact h.symm

theorem NewRequest_error {world : World} {method url : String} (hp : Plain url) {e : GoError}
    (h : world.NewRequest method url = .error e) : ∃ cause, e = urlError "parse" url cause := by
  unfold World.NewRequest at h
  split at h
  · rename_i err he
    injection h with h
    subst h
    exact Parse_error hp he
  · cases h

/-- A transmission that fails at once: the error of `client.Do` is on the URL
of the request. -/
theorem Do_send_error {world : World} {req : Request} {cause : GoError}
    (h : world.send req = .error cause) :
    world.Do req = .error (urlError (urlErrorOp req.method) req.url cause) := by
  unfold World.Do World.doLoop
  rw [h]

/-- The three integer parameters of a request never panic and lie in their
ranges. -/
theorem params_ok (draws : Draws) :
    ∃ a m y,
      randomInt draws.initAmount (GoInt.ofInt 500) (GoInt.ofInt 100000) = .ok a ∧
      randomInt draws.monthlyContribution (GoInt.ofInt 50) (GoInt.ofInt 5000) = .ok m ∧
      randomInt draws.numberOfYears (GoInt.ofInt 1) (GoInt.ofInt 50) = .ok y ∧
      (500 ≤ a.val ∧ a.val ≤ 100000) ∧ (50 ≤ m.val ∧ m.val ≤ 5000) ∧
      (1 ≤ y.val ∧ y.val ≤ 50) := by
  obtain ⟨a, ha, ha'⟩ := randomInt_ok draws.initAmount (GoInt.ofInt 500) (GoInt.ofInt 100000)
    (by decide) (by decide)
  obtain ⟨m, hm, hm'⟩ := randomInt_ok draws.monthlyContribution (GoInt.ofInt 50)
    (GoInt.ofInt 5000) (by decide) (by decide)
  obtain ⟨y, hy, hy'⟩ := randomInt_ok draws.numberOfYears (GoInt.ofInt 1) (GoInt.ofInt 50)
    (by decide) (by decide)
  have e1 : (GoInt.ofInt 500).val = 500 := by decide
  have e2 : (GoInt.ofInt 100000).val = 100000 := by decide
  have e3 : (GoInt.ofInt 50).val = 50 := by decide
  have e4 : (GoInt.ofInt 5000).val = 5000 := by decide
  have e5 : (GoInt.ofInt 1).val = 1 := by decide
  rw [e1, e2] at ha'
  rw [e3, e4] at hm'
  rw [e5, e3] at hy'
  refine ⟨a, m, y, ha, hm, hy, ?_, ?_, ?_⟩ <;> omega

/-- A text that contains the URL of a request contains its four parameters,
each after its name. -/
theorem contains_params {t : String} {a m : GoInt} {rate : String} {y : GoInt}
    (h : Contains t (requestURL a m rate y)) :
    Contains t (requestURL a m rate y) ∧
      Contains t ("initAmount=" ++ toString a.val) ∧
      Contains t ("monthlyContribution=" ++ toString m.val) ∧
      Contains t ("interestRate=" ++ rate) ∧
      Contains t ("numberOfYears=" ++ toString y.val) := by
  obtain ⟨h1, h2, h3, h4⟩ := requestURL_contains a m rate y
  exact ⟨h, h.trans h1, h.trans h2, h.trans h3, h.trans h4⟩

/-- When `client.Do` fails after a transmission that gave a response, the
response was a redirect with a `Location` header. -/
theorem Do_error_after_response {world : World} {req : Request} {resp : Response}
    {err : GoError} (hs : world.send req = .ok resp) (hd : world.Do req = .error err) :
    (redirectBehavior req.method resp).2 = true ∧ resp.Location ≠ "" := by
  unfold World.Do World.doLoop at hd
  rw [hs] at hd
  dsimp only at hd
  split_ifs at hd with h1 h2
  · exact ⟨by simpa using h1, h2⟩

/-- For the draw `0` the `interestRate` parameter is `0.10`. -/
theorem interestRate_zero : interestRate false (.finite 0) = "0.10" := by
  obtain ⟨r, hr, hform, hlo, -⟩ := rate_value false 0 (by norm_num) (by norm_num)
  obtain ⟨-, hcA, hcB⟩ := tenth_bounds
  rw [if_neg (by simp), zero_mul, roundToGrid_zero, add_zero, roundToGrid_idem] at hform
  have hr0 : 0 ≤ r := by linarith
  have h3 : roundHalfEven (r * 100) = 10 :=
    roundHalfEven_eq_of_close (by push_cast; linarith) (by push_cast; linarith)
  unfold interestRate
  rw [hr, formatFixed2_nonneg hr0, h3]
  decide

/-- The request of the draws zero: `initAmount = 500`,
`monthlyContribution = 50`, `interestRate = 0.10`, `numberOfYears = 1`. -/
theorem zero_draws :
    randomInt 0 (GoInt.ofInt 500) (GoInt.ofInt 100000) = .ok (GoInt.ofInt 500) ∧
    randomInt 0 (GoInt.ofInt 50) (GoInt.ofInt 5000) = .ok (GoInt.ofInt 50) ∧
    randomInt 0 (GoInt.ofInt 1) (GoInt.ofInt 50) = .ok (GoInt.ofInt 1) ∧
    requestURL (GoInt.ofInt 500) (GoInt.ofInt 50) (interestRate false (.finite 0)) (GoInt.ofInt 1)
      = "https://calc.test.trahan.dev/calculated?initAmount=500&monthlyContribution=50&interestRate=0.10&numberOfYears=1" := by
  refine ⟨rfl, rfl, rfl, ?_⟩
  rw [interestRate_zero]
  decide

/-- Example: job 7, all draws zero, the server is down. The line is the one of
the failed transmission and contains the URL of the request, with the four
parameters. -/
theorem sendRequest_serverDown :
    ∃ eff line,
      sendRequest false serverDown ⟨0, 0, .finite 0, 0⟩ (GoInt.ofInt 7) = .ok eff ∧
      eff.logs = [line] ∧
      line.text = "Error in request 7: Get \"https://calc.test.trahan.dev/calculated?initAmount=500&monthlyContribution=50&interestRate=0.10&numberOfYears=1\": dial tcp 192.0.2.1:443: connect: connection refused" := by
  obtain ⟨ha, hm, hy, hurl⟩ := zero_draws
  refine ⟨⟨[⟨"Error in request %d: %v", [.int (GoInt.ofInt 7),
      .err (urlError "Get" "https://calc.test.trahan.dev/calculated?initAmount=500&monthlyContribution=50&interestRate=0.10&numberOfYears=1"
        ⟨"dial tcp 192.0.2.1:443: connect: connection refused"⟩)]⟩],
    [⟨"GET", "https://calc.test.trahan.dev/calculated?initAmount=500&monthlyContribution=50&interestRate=0.10&numberOfYears=1"⟩],
    0, 1⟩, _, ?_, rfl, by rfl⟩
  unfold sendRequest
  simp only [ha, hm, hy, bind, Except.bind, pure, Except.pure]
  rw [hurl]
  rfl

end GoWebTest
